import Mathlib

/-!
# convert2cbmpa: the bmpa writer, its pixel conversion and its metadata loader

A shallow embedding of `main` in `convert2cbmpa.cpp`.  Bytes are natural
numbers below 256, the output file is the list of bytes written to it, and
every read of a heap array is bounds-checked so that an out-of-range access
shows up as a failure instead of a value.  The arithmetic of lines 161-164 is
binary32: every conversion, quotient and product is rounded to 24 significant
digits, to nearest with ties to even.
-/

namespace Convert2cbmpa

/-- A byte of the output stream or of a `std::string`. -/
abbrev Byte := Nat

/-- The `k` low-order bytes of `v`, least significant first: what
`outFile.write((char*)&field, k)` emits for an integer field of `k` bytes. -/
def leBytes : Nat → Nat → List Byte
  | 0, _ => []
  | k + 1, v => v % 256 :: leBytes k (v / 256)

/-- One record of the pixel buffer (`collieBMPAPixel`: four `unsigned char`). -/
structure collieBMPAPixel where
  r : Nat
  g : Nat
  b : Nat
  a : Nat
deriving DecidableEq, Repr

/-- One animation clip (`collieAnimationInfo`: four `unsigned short`). -/
structure collieAnimationInfo where
  baseFrame : Nat
  startFrame : Nat
  endFrame : Nat
  rate : Nat
deriving DecidableEq, Repr

/-- Modelled from the spec: the type `collieBMPA` of libcollie, whose header is
not part of the sources.  `width`, `height` and `animationCount` occupy four
bytes, the grid and pivot fields two; `pixels` is the heap array behind the
`pixels` pointer and `animations` the clip table. -/
structure collieBMPA where
  width : Nat
  height : Nat
  gridW : Nat
  gridH : Nat
  rotatePointX : Nat
  rotatePointY : Nat
  pixels : List collieBMPAPixel
  animationCount : Nat
  animations : List collieAnimationInfo
deriving DecidableEq, Repr

/-- The value an `int` holds after an assignment of the mathematical value `n`
(two's complement, 32 bits). -/
def wrapInt (n : Int) : Int :=
  (n + 2147483648) % 4294967296 - 2147483648

/-- The index `pTarget = (y * width) + x` of both pixel loops, stored in an `int`. -/
def pTarget (width y x : Nat) : Int :=
  wrapInt ((y : Int) * (width : Int) + (x : Int))

/-- Bounds-checked read `buf[i]`; `none` stands for an access outside the array. -/
def readAt {α : Type} (buf : List α) (i : Int) : Option α :=
  if 0 ≤ i then buf.get? i.toNat else none

/-- Bounds-checked store `buf[i] = v`; `none` stands for an access outside the array. -/
def storeAt {α : Type} (buf : List α) (i : Int) (v : α) : Option (List α) :=
  if 0 ≤ i ∧ i.toNat < buf.length then some (buf.set i.toNat v) else none

/-- A counted loop whose body appends bytes to the stream: the iterations run
in list order and the first failing one ends the run. -/
def emitAll : List Nat → (Nat → Option (List Byte)) → Option (List Byte)
  | [], _ => some []
  | i :: rest, body =>
    match body i with
    | none => none
    | some bs =>
      match emitAll rest body with
      | none => none
      | some more => some (bs ++ more)

/-- The four `write` calls of the inner pixel loop (lines 190-194). -/
def writePixel (out : collieBMPA) (y x : Nat) : Option (List Byte) :=
  (readAt out.pixels (pTarget out.width y x)).map fun p => [p.r, p.g, p.b, p.a]

/-- The pixel loops of the write step (lines 188-196). -/
def writePixels (out : collieBMPA) : Option (List Byte) :=
  emitAll (List.range out.height) fun y =>
    emitAll (List.range out.width) fun x => writePixel out y x

/-- The four `write` calls of the animation loop (lines 201-204). -/
def writeAnimation (out : collieBMPA) (i : Nat) : Option (List Byte) :=
  match out.animations.get? i with
  | none => none
  | some c =>
    some (leBytes 2 c.baseFrame ++ leBytes 2 c.startFrame ++
      leBytes 2 c.endFrame ++ leBytes 2 c.rate)

/-- The animation loop of the write step (lines 200-205). -/
def writeAnimations (out : collieBMPA) : Option (List Byte) :=
  emitAll (List.range out.animationCount) (writeAnimation out)

/-- The write step, lines 178-207: everything written to `outFile` between its
construction and `close`, or `none` when a loop reads outside its array. -/
def writeBmpa (outComment : List Byte) (out : collieBMPA) : Option (List Byte) :=
  match writePixels out with
  | none => none
  | some px =>
    match writeAnimations out with
    | none => none
    | some an =>
      some (outComment ++ [0] ++ leBytes 4 out.width ++ leBytes 4 out.height ++
        leBytes 2 out.gridW ++ leBytes 2 out.gridH ++
        leBytes 2 out.rotatePointX ++ leBytes 2 out.rotatePointY ++
        px ++ leBytes 4 out.animationCount ++ an)

/-- The bytes of one pixel record in file order. -/
def pixelBytes (p : collieBMPAPixel) : List Byte := [p.r, p.g, p.b, p.a]

/-- The bytes of one animation record in file order. -/
def clipBytes (c : collieAnimationInfo) : List Byte :=
  leBytes 2 c.baseFrame ++ leBytes 2 c.startFrame ++ leBytes 2 c.endFrame ++ leBytes 2 c.rate

/-! ## Pixel conversion (lines 150-166) -/

/-- A decoded sample quadruple (`Magick::PixelPacket`, four `Quantum` values). -/
structure PixelPacket where
  red : Nat
  green : Nat
  blue : Nat
  opacity : Nat
deriving DecidableEq, Repr

/-- A successfully decoded image: its `size()` and its pixel accessor
`getPixels(x, y, 1, 1)[0]`. -/
structure Image where
  width : Nat
  height : Nat
  getPixels : Nat → Nat → PixelPacket

/-- The number of binary digits of `n` (0 for 0), computed with `fuel` halvings at most. -/
def bitLengthAux : Nat → Nat → Nat
  | 0, _ => 0
  | fuel + 1, n => if n = 0 then 0 else bitLengthAux fuel (n / 2) + 1

/-- The number of binary digits of `n`. -/
def bitLength (n : Nat) : Nat := bitLengthAux n n

/-- A finite, non-negative binary32 value `mantissa * 2 ^ exponent` (the type `float`). -/
structure Binary32 where
  mantissa : Nat
  exponent : Int
deriving DecidableEq, Repr

/-- The integer nearest to `(q + f) / 2 ^ s`, ties to even, where `f` is a fraction in [0, 1)
that is zero exactly when `sticky` is 0. -/
def roundBits (q sticky s : Nat) : Nat :=
  if (2 * q + sticky) % 2 ^ (s + 1) > 2 ^ s ∨
      ((2 * q + sticky) % 2 ^ (s + 1) = 2 ^ s ∧ (2 * q + sticky) / 2 ^ (s + 1) % 2 = 1) then
    (2 * q + sticky) / 2 ^ (s + 1) + 1
  else (2 * q + sticky) / 2 ^ (s + 1)

/-- The number of digits a 25- or 26-digit quotient has beyond the 24 of a mantissa. -/
def excess (q : Nat) : Nat := if q < 33554432 then 1 else 2

/-- The value `num / den * 2 ^ e`, whose quotient `num / den` has 25 or 26 binary digits,
rounded to 24 digits: to nearest, ties to even. -/
def roundScaled (num den : Nat) (e : Int) : Binary32 :=
  ⟨roundBits (num / den) (if num % den = 0 then 0 else 1) (excess (num / den)),
    e + (excess (num / den) : Int)⟩

/-- The power of two by which `n / d` is scaled to a quotient of 25 or 26 binary digits. -/
def scaleShift (n d : Nat) : Int :=
  25 + (bitLength d : Int) - (bitLength n : Int)

/-- The value `n / d * 2 ^ k` rounded to binary32 (round to nearest, ties to even).
Overflow and subnormal results lie outside the range of the conversion and are not
represented. -/
def roundBinary32 (n d : Nat) (k : Int) : Binary32 :=
  if n = 0 then ⟨0, 0⟩
  else
    roundScaled (n * 2 ^ (scaleShift n d).toNat) (d * 2 ^ (-(scaleShift n d)).toNat)
      (k - scaleShift n d)

/-- The conversion `(float)v` of an unsigned integer. -/
def Binary32.ofNat (v : Nat) : Binary32 := roundBinary32 v 1 0

/-- The quotient `a / b` of two floats. -/
def Binary32.div (a b : Binary32) : Binary32 :=
  roundBinary32 a.mantissa b.mantissa (a.exponent - b.exponent)

/-- The product `a * c` of a float and an integer constant that is exact as a float. -/
def Binary32.mulNat (a : Binary32) (c : Nat) : Binary32 :=
  roundBinary32 (a.mantissa * c) 1 a.exponent

/-- The rational number a float stands for. -/
def Binary32.toRat (a : Binary32) : ℚ := (a.mantissa : ℚ) * (2 : ℚ) ^ a.exponent

/-- The expression `(float)((float)v / MaxRGB) * UCHAR_MAX` in binary32: the
sample and `MaxRGB` are converted to `float`, divided, and the quotient is
multiplied by 255. -/
def scaleSample (MaxRGB v : Nat) : Binary32 :=
  ((Binary32.ofNat v).div (Binary32.ofNat MaxRGB)).mulNat 255

/-- Conversion of a float to an integer type: the fraction is discarded. -/
def truncToInt (a : Binary32) : Int :=
  if 0 ≤ a.exponent then ((a.mantissa * 2 ^ a.exponent.toNat : Nat) : Int)
  else ((a.mantissa / 2 ^ (-a.exponent).toNat : Nat) : Int)

/-- Whether each of the `2 ^ k` samples `lo`, `lo + stride`, `lo + 2 * stride`, ... scales to
the floor of `sample * 255 / m`. -/
def scalesExactly (m stride : Nat) : Nat → Nat → Bool
  | 0, lo => truncToInt (scaleSample m lo) == ((lo * 255 / m : Nat) : Int)
  | k + 1, lo => scalesExactly m stride k lo && scalesExactly m stride k (lo + 2 ^ k * stride)

/-- Conversion of an integer to `unsigned char`. -/
def toUChar (z : Int) : Nat :=
  (z % 256).toNat

/-- The four assignments of lines 161-164. -/
def convertPixel (MaxRGB : Nat) (p : PixelPacket) : collieBMPAPixel :=
  { r := toUChar (truncToInt (scaleSample MaxRGB p.red))
    g := toUChar (truncToInt (scaleSample MaxRGB p.green))
    b := toUChar (truncToInt (scaleSample MaxRGB p.blue))
    a := toUChar (255 - truncToInt (scaleSample MaxRGB p.opacity)) }

/-- The ways a run can end other than by `return 0` at the end of `main`. -/
inductive Fatal where
  /-- Lines 112-113: message, then `exit(0)`. -/
  | animationsNotArray
  /-- Lines 121-122: message naming the index, then `exit(0)`. -/
  | animationMissingValue (i : Nat)
  /-- Lines 167-169: the `catch` of `Magick::Exception`, message, then `exit(0)`. -/
  | magickException (what : String)
  /-- An exception of the JSON library (parse error 101, type errors 302 and
  305); `main` has no handler for it. -/
  | jsonException (id : Nat)
  /-- An access outside a heap array. -/
  | outOfBounds
deriving DecidableEq, Repr

/-- A counted loop over a state: the iterations run in list order and the
first failing one ends the run. -/
def forEach {ι σ : Type} : List ι → (σ → ι → Except Fatal σ) → σ → Except Fatal σ
  | [], _, s => .ok s
  | i :: rest, body, s =>
    match body s i with
    | .error e => .error e
    | .ok t => forEach rest body t

/-- The outcome of a checked array access as an outcome of the run. -/
def inBounds {α : Type} : Option α → Except Fatal α
  | none => .error Fatal.outOfBounds
  | some v => .ok v

/-- The body of the inner conversion loop (lines 158-164) acting on the pixel array. -/
def convertStep (MaxRGB : Nat) (image : Image) (y : Nat)
    (buf : List collieBMPAPixel) (x : Nat) : Except Fatal (List collieBMPAPixel) :=
  inBounds (storeAt buf (pTarget image.width y x) (convertPixel MaxRGB (image.getPixels x y)))

/-- The array `new collieBMPAPixel[out.width * out.height]` of line 153; its
cells are given a placeholder content until the loops assign them. -/
def newPixels (width height : Nat) : List collieBMPAPixel :=
  List.replicate (wrapInt ((width : Int) * (height : Int))).toNat ⟨0, 0, 0, 0⟩

/-- Lines 150-166: the dimensions are stored in their four-byte fields, the
array is allocated and the two loops fill it. -/
def convertImage (MaxRGB : Nat) (image : Image) (out : collieBMPA) : Except Fatal collieBMPA :=
  let width := image.width % 4294967296
  let height := image.height % 4294967296
  match forEach (List.range image.height)
      (fun buf y => forEach (List.range image.width) (convertStep MaxRGB image y) buf)
      (newPixels width height) with
  | .error e => .error e
  | .ok buf => .ok { out with width := width, height := height, pixels := buf }

/-! ## Metadata (lines 60-135) -/

/-- A parsed JSON value.  String values are carried as the bytes that
`get<std::string>()` returns; numbers are the integers of the schema. -/
inductive Json where
  | null
  | bool (b : Bool)
  | num (n : Int)
  | str (s : List Byte)
  | arr (xs : List Json)
  | obj (kvs : List (String × Json))

/-- The member `contains(key)`: true only on an object that has the key. -/
def Json.contains : Json → String → Bool
  | .obj kvs, k => (kvs.lookup k).isSome
  | _, _ => false

/-- The member `is_array()`. -/
def Json.isArray : Json → Bool
  | .arr _ => true
  | _ => false

/-- The member `operator[](key)` on a mutable value: the stored value, a
`null` for a key that is not there (also on `null`), error 305 on any other type. -/
def Json.atKey : Json → String → Except Fatal Json
  | .obj kvs, k => .ok ((kvs.lookup k).getD Json.null)
  | .null, _ => .ok Json.null
  | _, _ => .error (Fatal.jsonException 305)

/-- The elements of an array value. -/
def Json.elements : Json → List Json
  | .arr xs => xs
  | _ => []

/-- The member `operator[](i)` on a mutable array: the element, or `null`
past the end. -/
def Json.atIndex (j : Json) (i : Nat) : Json :=
  j.elements.getD i Json.null

/-- The member `get<std::string>()`: error 302 unless the value is a string. -/
def Json.getString : Json → Except Fatal (List Byte)
  | .str s => .ok s
  | _ => .error (Fatal.jsonException 302)

/-- The member `get<unsigned short>()`: a number converted to 16 bits, a
boolean as 0 or 1, error 302 on any other type. -/
def Json.getUShort : Json → Except Fatal Nat
  | .num n => .ok (n % 65536).toNat
  | .bool b => .ok (if b then 1 else 0)
  | _ => .error (Fatal.jsonException 302)

/-- The member `size()`: 0 for `null`, the number of elements of an array or
of members of an object, 1 for any other value. -/
def Json.size : Json → Nat
  | .null => 0
  | .arr xs => xs.length
  | .obj kvs => kvs.length
  | _ => 1

/-- The static member `array()` of the JSON type, called without arguments:
a new empty array. -/
def Json.array : Json := .arr []

/-- The loop bound `info["animations"].array().size()` of line 116.  `array()`
is a static member of the JSON type: called through the value
`info["animations"]` it does not look at that value and returns a new empty
array, so the bound is the size of an empty array. -/
def animationsSize (_animations : Json) : Nat :=
  Json.array.size

/-- Modelled from the spec: `out << a` (line 131) of libcollie, whose sources
are absent: the clip is added at the end of the table and counted. -/
def pushAnimation (out : collieBMPA) (a : collieAnimationInfo) : collieBMPA :=
  { out with animations := out.animations ++ [a], animationCount := out.animationCount + 1 }

/-- The test of lines 117-120, as written. -/
def missingValue (e : Json) : Bool :=
  !e.contains "baseFrame" || e.contains "startFrame" ||
    !e.contains "endFrame" || !e.contains "rate"

/-- The value `info["animations"][i][key].get<unsigned short>()`. -/
def readUShort (e : Json) (key : String) : Except Fatal Nat :=
  match e.atKey key with
  | .error err => .error err
  | .ok v => v.getUShort

/-- The body of the animation loop (lines 117-131). -/
def animationStep (animations : Json) (out : collieBMPA) (i : Nat) : Except Fatal collieBMPA :=
  let e := animations.atIndex i
  if missingValue e then .error (Fatal.animationMissingValue i)
  else
    match readUShort e "baseFrame" with
    | .error err => .error err
    | .ok baseFrame =>
      match readUShort e "startFrame" with
      | .error err => .error err
      | .ok startFrame =>
        match readUShort e "endFrame" with
        | .error err => .error err
        | .ok endFrame =>
          match readUShort e "rate" with
          | .error err => .error err
          | .ok rate => .ok (pushAnimation out ⟨baseFrame, startFrame, endFrame, rate⟩)

/-- The animation loop (lines 116-132) run with the bound `bound`. -/
def loadAnimations (bound : Nat) (animations : Json) (out : collieBMPA) : Except Fatal collieBMPA :=
  forEach (List.range bound) (animationStep animations) out

/-- Lines 110-133. -/
def loadAnimationsSection (info : Json) (out : collieBMPA) : Except Fatal collieBMPA :=
  if info.contains "animations" then
    match info.atKey "animations" with
    | .error err => .error err
    | .ok animations =>
      if !animations.isArray then .error Fatal.animationsNotArray
      else loadAnimations (animationsSize animations) animations out
  else .ok out

/-- Lines 82-84: the comment is replaced only when the key is there. -/
def loadComment (info : Json) (outComment : List Byte) : Except Fatal (List Byte) :=
  if info.contains "comment" then
    match info.atKey "comment" with
    | .error err => .error err
    | .ok v => v.getString
  else .ok outComment

/-- One of the four blocks of lines 86-108: the value under the key, or 0. -/
def loadUShort (info : Json) (key : String) : Except Fatal Nat :=
  if info.contains key then readUShort info key else .ok 0

/-- Lines 82-133 on a parsed value, in source order. -/
def loadMetadata (info : Json) (outComment : List Byte) (out : collieBMPA) :
    Except Fatal (List Byte × collieBMPA) :=
  match loadComment info outComment with
  | .error err => .error err
  | .ok comment =>
    match loadUShort info "gridW" with
    | .error err => .error err
    | .ok gridW =>
      match loadUShort info "gridH" with
      | .error err => .error err
      | .ok gridH =>
        match loadUShort info "rotatePointX" with
        | .error err => .error err
        | .ok rotatePointX =>
          match loadUShort info "rotatePointY" with
          | .error err => .error err
          | .ok rotatePointY =>
            match loadAnimationsSection info
                { out with gridW := gridW, gridH := gridH,
                           rotatePointX := rotatePointX, rotatePointY := rotatePointY } with
            | .error err => .error err
            | .ok loaded => .ok (comment, loaded)

/-- What the run is given as metadata. -/
inductive MetaSource where
  /-- No `-i`: lines 69-134 are skipped. -/
  | absent
  /-- The text read from the file is not JSON (also when the file is missing
  or unreadable and the text is empty): `parse` throws error 101. -/
  | unparsable
  /-- The text parses to this value. -/
  | parsed (info : Json)

/-- Lines 60-66: the state before the metadata is looked at. -/
def initialBmpa : collieBMPA :=
  { width := 0, height := 0, gridW := 0, gridH := 0, rotatePointX := 0, rotatePointY := 0,
    pixels := [], animationCount := 0, animations := [] }

/-- Lines 60-135. -/
def loadInfo : MetaSource → Except Fatal (List Byte × collieBMPA)
  | .absent => .ok ([], initialBmpa)
  | .unparsable => .error (Fatal.jsonException 101)
  | .parsed info => loadMetadata info [] initialBmpa

/-! ## The whole run -/

/-- How the process ends. -/
inductive Termination where
  /-- `return code` from `main`. -/
  | returned (code : Nat)
  /-- A call of `exit(code)`. -/
  | exited (code : Nat)
  /-- An exception nobody catches. -/
  | terminateCalled
  /-- An access outside an array. -/
  | undefinedBehaviour
deriving DecidableEq, Repr

/-- How each fatal condition ends the process. -/
def Fatal.termination : Fatal → Termination
  | .animationsNotArray => .exited 0
  | .animationMissingValue _ => .exited 0
  | .magickException _ => .exited 0
  | .jsonException _ => .terminateCalled
  | .outOfBounds => .undefinedBehaviour

/-- The observable end of a run. -/
structure Final where
  termination : Termination
  error : Option Fatal
  /-- Whether `image.read` (line 148) was reached. -/
  imageRead : Bool
  /-- The bytes of the output file; `none` when line 178 was never reached and
  no file was opened. -/
  outFile : Option (List Byte)
deriving DecidableEq, Repr

/-- The function `main` from line 60 on, for a given metadata source and a
given result of `image.read`. -/
def run (MaxRGB : Nat) (source : MetaSource) (decoded : Except String Image) : Final :=
  match loadInfo source with
  | .error e => { termination := e.termination, error := some e, imageRead := false, outFile := none }
  | .ok (outComment, out) =>
    match decoded with
    | .error what =>
      { termination := .exited 0, error := some (Fatal.magickException what),
        imageRead := true, outFile := none }
    | .ok image =>
      match convertImage MaxRGB image out with
      | .error e =>
        { termination := e.termination, error := some e, imageRead := true, outFile := none }
      | .ok converted =>
        match writeBmpa outComment converted with
        | none =>
          { termination := .undefinedBehaviour, error := some Fatal.outOfBounds,
            imageRead := true, outFile := some [] }
        | some bytes =>
          { termination := .returned 0, error := none, imageRead := true, outFile := some bytes }

/-- The output bytes from offset 0 up to the first zero byte. -/
def upToNul (bytes : List Byte) : List Byte :=
  bytes.takeWhile fun b => b != 0

/-- The converted records in buffer order: slot `j` holds the conversion of
the source pixel in column `j % width` of row `j / width`. -/
def rowMajorPixels (MaxRGB : Nat) (image : Image) : List collieBMPAPixel :=
  (List.range (image.width * image.height)).map fun j =>
    convertPixel MaxRGB (image.getPixels (j % image.width) (j / image.width))

/-- The comment a metadata object gives: the string under `comment`, the
empty string when the key is not there. -/
def givenComment (kvs : List (String × Json)) : List Byte :=
  match kvs.lookup "comment" with
  | some (.str s) => s
  | _ => []

/-- The 16-bit value a metadata object gives under `key`, 0 when the key is
not there. -/
def givenUShort (kvs : List (String × Json)) (key : String) : Nat :=
  match kvs.lookup key with
  | some (.num n) => n.toNat
  | _ => 0

/-- The pixel section of an output stream: the `4 * width * height` bytes that
follow the comment, its terminator and the sixteen bytes of geometry. -/
def pixelSection (commentLength width height : Nat) (bytes : List Byte) : List Byte :=
  (bytes.drop (commentLength + 17)).take (4 * (width * height))

/-- The 2x1 image of the concrete scenario for the maximum sample value `m`:
pixel (0,0) white with opacity 0, pixel (1,0) black with full opacity. -/
def twoPixelImage (m : Nat) : Image :=
  { width := 2, height := 1,
    getPixels := fun x _ => if x = 0 then ⟨m, m, m, 0⟩ else ⟨0, 0, 0, m⟩ }

/-- An animation entry with all four keys. -/
def completeEntry : Json :=
  .obj [("baseFrame", .num 1), ("startFrame", .num 2), ("endFrame", .num 3), ("rate", .num 4)]

/-- The entry of the malformed-entry scenario: it has no `endFrame`. -/
def entryWithoutEndFrame : Json :=
  .obj [("baseFrame", .num 1), ("startFrame", .num 2), ("rate", .num 3)]

/-- The document the loader builds from the four numeric fields a metadata
object gives, before the animations are looked at. -/
def givenGeometry (kvs : List (String × Json)) : collieBMPA :=
  { initialBmpa with
    gridW := givenUShort kvs "gridW", gridH := givenUShort kvs "gridH",
    rotatePointX := givenUShort kvs "rotatePointX",
    rotatePointY := givenUShort kvs "rotatePointY" }

/-- A document the write step is meant for: no zero byte in the comment,
`width * height` pixel records (a product that does not overflow an `int`),
`animationCount` clips, and every integer field within its declared width. -/
def WellFormed (c : List Byte) (out : collieBMPA) : Prop :=
  (∀ b ∈ c, b ≠ 0) ∧
  out.pixels.length = out.width * out.height ∧
  out.animations.length = out.animationCount ∧
  out.width * out.height < 2147483648 ∧
  out.width < 4294967296 ∧ out.height < 4294967296 ∧
  out.gridW < 65536 ∧ out.gridH < 65536 ∧
  out.rotatePointX < 65536 ∧ out.rotatePointY < 65536 ∧
  out.animationCount < 4294967296 ∧
  ∀ a ∈ out.animations,
    a.baseFrame < 65536 ∧ a.startFrame < 65536 ∧ a.endFrame < 65536 ∧ a.rate < 65536

/-- A small document used to exercise the write step: 2x1 pixels, one clip. -/
def sampleDocument : collieBMPA :=
  { width := 2, height := 1, gridW := 16, gridH := 8, rotatePointX := 3, rotatePointY := 300,
    pixels := [⟨255, 0, 0, 255⟩, ⟨1, 2, 3, 4⟩], animationCount := 1,
    animations := [⟨1, 2, 3, 4⟩] }

/-! ## Auxiliary facts: loops, indices and the layout of the stream -/

theorem emitAll_eq_flatMap (l : List Nat) (body : Nat → Option (List Byte)) (g : Nat → List Byte)
    (h : ∀ i ∈ l, body i = some (g i)) : emitAll l body = some (l.flatMap g) := by
  induction l with
  | nil => rfl
  | cons i rest ih =>
    have h1 := h i (List.mem_cons_self _ _)
    have h2 := ih (fun j hj => h j (List.mem_cons_of_mem _ hj))
    simp [emitAll, h1, h2]

theorem wrapInt_of_small (n : Int) (h0 : 0 ≤ n) (h1 : n < 2147483648) : wrapInt n = n := by
  unfold wrapInt
  omega

theorem rowMajor_lt (W H y x : Nat) (hy : y < H) (hx : x < W) : y * W + x < W * H := by
  have h1 : (y + 1) * W ≤ H * W := Nat.mul_le_mul_right W hy
  have h2 : (y + 1) * W = y * W + W := by ring
  have h3 : H * W = W * H := Nat.mul_comm H W
  omega

theorem pTarget_eq (W H y x : Nat) (hy : y < H) (hx : x < W) (h : W * H < 2147483648) :
    pTarget W y x = ((y * W + x : Nat) : Int) := by
  have hlt := rowMajor_lt W H y x hy hx
  unfold pTarget
  rw [wrapInt_of_small]
  · push_cast; ring
  · positivity
  · have : ((y * W + x : Nat) : Int) < 2147483648 := by exact_mod_cast (lt_trans hlt h)
    push_cast at this
    linarith

theorem readAt_natCast {α : Type} (buf : List α) (n : Nat) : readAt buf (n : Int) = buf.get? n := by
  simp [readAt]

theorem flatMap_rowMajor {β : Type} (W H : Nat) (f : Nat → List β) :
    (List.range H).flatMap (fun y => (List.range W).flatMap (fun x => f (y * W + x))) =
      (List.range (H * W)).flatMap f := by
  induction H with
  | zero => simp
  | succ H ih =>
    rw [List.range_succ, List.flatMap_append, ih, Nat.succ_mul, List.range_add, List.flatMap_append]
    simp [List.flatMap_map]

theorem map_getD_range {α : Type} (buf : List α) (d : α) :
    (List.range buf.length).map (fun i => buf.getD i d) = buf := by
  apply List.ext_getElem
  · simp
  · intro n h1 h2
    simp [List.getD_eq_getElem?_getD, List.getElem?_eq_getElem h2]

theorem leBytes_two (v : Nat) : leBytes 2 v = [v % 256, v / 256 % 256] := rfl

theorem leBytes_four (v : Nat) :
    leBytes 4 v = [v % 256, v / 256 % 256, v / 65536 % 256, v / 16777216 % 256] := by
  simp [leBytes, Nat.div_div_eq_div_mul]

theorem writePixel_eq (out : collieBMPA) (d : collieBMPAPixel) (y x : Nat)
    (hlen : out.pixels.length = out.width * out.height)
    (hov : out.width * out.height < 2147483648)
    (hy : y < out.height) (hx : x < out.width) :
    writePixel out y x = some (pixelBytes (out.pixels.getD (y * out.width + x) d)) := by
  have hlt := rowMajor_lt out.width out.height y x hy hx
  have hin : y * out.width + x < out.pixels.length := by omega
  unfold writePixel
  rw [pTarget_eq out.width out.height y x hy hx hov, readAt_natCast]
  simp [List.getD_eq_getElem?_getD, List.getElem?_eq_getElem hin, pixelBytes]

theorem writePixels_eq (out : collieBMPA)
    (hlen : out.pixels.length = out.width * out.height)
    (hov : out.width * out.height < 2147483648) :
    writePixels out = some (out.pixels.flatMap pixelBytes) := by
  have d : collieBMPAPixel := ⟨0, 0, 0, 0⟩
  unfold writePixels
  rw [emitAll_eq_flatMap (List.range out.height) _
    (fun y => (List.range out.width).flatMap
      (fun x => pixelBytes (out.pixels.getD (y * out.width + x) d)))]
  · rw [flatMap_rowMajor out.width out.height (fun i => pixelBytes (out.pixels.getD i d))]
    have hn : out.height * out.width = out.pixels.length := by rw [hlen, Nat.mul_comm]
    rw [hn]
    conv_rhs => rw [← map_getD_range out.pixels d]
    rw [List.flatMap_map]
  · intro y hy
    apply emitAll_eq_flatMap
    intro x hx
    exact writePixel_eq out d y x hlen hov (List.mem_range.mp hy) (List.mem_range.mp hx)

theorem writeAnimations_eq (out : collieBMPA)
    (han : out.animations.length = out.animationCount) :
    writeAnimations out = some (out.animations.flatMap clipBytes) := by
  have d : collieAnimationInfo := ⟨0, 0, 0, 0⟩
  unfold writeAnimations
  rw [emitAll_eq_flatMap (List.range out.animationCount) _
    (fun i => clipBytes (out.animations.getD i d))]
  · rw [← han]
    conv_rhs => rw [← map_getD_range out.animations d]
    rw [List.flatMap_map]
  · intro i hi
    have hin : i < out.animations.length := by rw [han]; exact List.mem_range.mp hi
    simp [writeAnimation, List.getD_eq_getElem?_getD, List.getElem?_eq_getElem hin, clipBytes]

theorem writeBmpa_eq (c : List Byte) (out : collieBMPA)
    (hlen : out.pixels.length = out.width * out.height)
    (hov : out.width * out.height < 2147483648)
    (han : out.animations.length = out.animationCount) :
    writeBmpa c out = some (c ++ [0] ++ leBytes 4 out.width ++ leBytes 4 out.height ++
        leBytes 2 out.gridW ++ leBytes 2 out.gridH ++
        leBytes 2 out.rotatePointX ++ leBytes 2 out.rotatePointY ++
        out.pixels.flatMap pixelBytes ++ leBytes 4 out.animationCount ++
        out.animations.flatMap clipBytes) := by
  unfold writeBmpa
  rw [writePixels_eq out hlen hov, writeAnimations_eq out han]

theorem length_flatMap_const {α β : Type} (l : List α) (f : α → List β) (k : Nat)
    (h : ∀ a, (f a).length = k) : (l.flatMap f).length = k * l.length := by
  induction l with
  | nil => simp
  | cons a rest ih => simp [List.flatMap_cons, h, ih, Nat.mul_succ]; omega

theorem forEach_append {ι σ : Type} (l1 l2 : List ι) (body : σ → ι → Except Fatal σ) (s : σ) :
    forEach (l1 ++ l2) body s =
      match forEach l1 body s with
      | .error e => .error e
      | .ok t => forEach l2 body t := by
  induction l1 generalizing s with
  | nil => rfl
  | cons i rest ih =>
    simp only [List.cons_append, forEach]
    cases body s i with
    | error e => rfl
    | ok t => exact ih t

theorem rowMajor_div_mod (W y x : Nat) (hx : x < W) :
    (y * W + x) / W = y ∧ (y * W + x) % W = x := by
  have hW : 0 < W := by omega
  constructor
  · rw [Nat.add_comm, Nat.add_mul_div_right x y hW, Nat.div_eq_of_lt hx, Nat.zero_add]
  · rw [Nat.add_comm, Nat.add_mul_mod_self_right, Nat.mod_eq_of_lt hx]

theorem storeAt_natCast {α : Type} (buf : List α) (n : Nat) (v : α) (h : n < buf.length) :
    storeAt buf (n : Int) v = some (buf.set n v) := by
  have h2 : (0 : Int) ≤ (n : Int) ∧ ((n : Int)).toNat < buf.length :=
    ⟨Int.natCast_nonneg n, by rw [Int.toNat_natCast]; exact h⟩
  unfold storeAt
  rw [if_pos h2, Int.toNat_natCast]

theorem convertStep_eq (MaxRGB : Nat) (image : Image) (H y x : Nat) (buf : List collieBMPAPixel)
    (hlen : buf.length = image.width * H) (hov : image.width * H < 2147483648)
    (hy : y < H) (hx : x < image.width) :
    convertStep MaxRGB image y buf x =
      .ok (buf.set (y * image.width + x) (convertPixel MaxRGB (image.getPixels x y))) := by
  have hlt := rowMajor_lt image.width H y x hy hx
  have hin : y * image.width + x < buf.length := by omega
  unfold convertStep
  rw [pTarget_eq image.width H y x hy hx hov, storeAt_natCast buf _ _ hin]
  rfl

theorem forEach_snoc {ι σ : Type} (l : List ι) (i : ι) (body : σ → ι → Except Fatal σ)
    (s t : σ) (h : forEach l body s = .ok t) :
    forEach (l ++ [i]) body s = body t i := by
  rw [forEach_append, h]
  simp only [forEach]
  cases body t i <;> rfl

theorem convertRow_spec (MaxRGB : Nat) (image : Image) (H y : Nat)
    (hov : image.width * H < 2147483648) (hy : y < H) (n : Nat) (hn : n ≤ image.width)
    (buf : List collieBMPAPixel) (hlen : buf.length = image.width * H) :
    ∃ next, forEach (List.range n) (convertStep MaxRGB image y) buf = .ok next ∧
      next.length = buf.length ∧
      ∀ j, next[j]? =
        if y * image.width ≤ j ∧ j < y * image.width + n then
          some (convertPixel MaxRGB (image.getPixels (j % image.width) (j / image.width)))
        else buf[j]? := by
  induction n with
  | zero =>
    refine ⟨buf, rfl, rfl, ?_⟩
    intro j
    rw [if_neg (by omega)]
  | succ n ih =>
    obtain ⟨mid, hmid, hmlen, hget⟩ := ih (by omega)
    have hx : n < image.width := by omega
    have hlt := rowMajor_lt image.width H y n hy hx
    have hdm := rowMajor_div_mod image.width y n hx
    refine ⟨mid.set (y * image.width + n) (convertPixel MaxRGB (image.getPixels n y)), ?_, ?_, ?_⟩
    · rw [List.range_succ, forEach_snoc _ _ _ _ _ hmid,
        convertStep_eq MaxRGB image H y n mid (by omega) hov hy hx]
    · rw [List.length_set, hmlen]
    · intro j
      rw [List.getElem?_set]
      by_cases hj : y * image.width + n = j
      · subst hj
        have h1 : y * image.width + n < mid.length := by omega
        rw [if_pos rfl, if_pos h1, if_pos ⟨by omega, by omega⟩, hdm.1, hdm.2]
      · rw [if_neg hj, hget j]
        by_cases hc : y * image.width ≤ j ∧ j < y * image.width + n
        · have hc2 : y * image.width ≤ j ∧ j < y * image.width + (n + 1) := by omega
          rw [if_pos hc, if_pos hc2]
        · have hc2 : ¬ (y * image.width ≤ j ∧ j < y * image.width + (n + 1)) := by omega
          rw [if_neg hc, if_neg hc2]

theorem convertRows_spec (MaxRGB : Nat) (image : Image) (H : Nat)
    (hov : image.width * H < 2147483648) (m : Nat) (hm : m ≤ H)
    (buf : List collieBMPAPixel) (hlen : buf.length = image.width * H) :
    ∃ next, forEach (List.range m)
        (fun b y => forEach (List.range image.width) (convertStep MaxRGB image y) b) buf
          = .ok next ∧
      next.length = buf.length ∧
      ∀ j, next[j]? =
        if j < m * image.width then
          some (convertPixel MaxRGB (image.getPixels (j % image.width) (j / image.width)))
        else buf[j]? := by
  induction m with
  | zero =>
    refine ⟨buf, rfl, rfl, ?_⟩
    intro j
    rw [if_neg (by omega)]
  | succ m ih =>
    obtain ⟨mid, hmid, hmlen, hget⟩ := ih (by omega)
    obtain ⟨next, hnext, hnlen, hnget⟩ :=
      convertRow_spec MaxRGB image H m hov (by omega) image.width (le_refl _) mid (by omega)
    refine ⟨next, ?_, by omega, ?_⟩
    · rw [List.range_succ, forEach_snoc _ _ _ _ _ hmid, hnext]
    · intro j
      rw [hnget j, hget j]
      have hs : (m + 1) * image.width = m * image.width + image.width := Nat.succ_mul _ _
      by_cases h1 : j < m * image.width
      · have h2 : ¬ (m * image.width ≤ j ∧ j < m * image.width + image.width) := by omega
        have h3 : j < (m + 1) * image.width := by omega
        rw [if_neg h2, if_pos h1, if_pos h3]
      · by_cases h2 : j < m * image.width + image.width
        · have h3 : j < (m + 1) * image.width := by omega
          rw [if_pos ⟨by omega, h2⟩, if_pos h3]
        · have h3 : ¬ j < (m + 1) * image.width := by omega
          rw [if_neg (by omega), if_neg h1, if_neg h3]

theorem newPixels_eq (W H : Nat) (hov : W * H < 2147483648) :
    newPixels W H = List.replicate (W * H) ⟨0, 0, 0, 0⟩ := by
  have h : ((W : Int) * (H : Int)) = ((W * H : Nat) : Int) := by push_cast; rfl
  have h2 : ((W * H : Nat) : Int) < 2147483648 := by exact_mod_cast hov
  unfold newPixels
  rw [h, wrapInt_of_small _ (Int.natCast_nonneg _) h2, Int.toNat_natCast]

theorem length_rowMajorPixels (MaxRGB : Nat) (image : Image) :
    (rowMajorPixels MaxRGB image).length = image.width * image.height := by
  unfold rowMajorPixels
  rw [List.length_map, List.length_range]

theorem getElem_opt_rowMajorPixels (MaxRGB : Nat) (image : Image) (j : Nat) :
    (rowMajorPixels MaxRGB image)[j]? =
      if j < image.height * image.width then
        some (convertPixel MaxRGB (image.getPixels (j % image.width) (j / image.width)))
      else none := by
  unfold rowMajorPixels
  rw [List.getElem?_map]
  by_cases hj : j < image.height * image.width
  · have hj2 : j < image.width * image.height := by rw [Nat.mul_comm]; exact hj
    rw [if_pos hj, List.getElem?_range hj2]
    rfl
  · have hj3 : (List.range (image.width * image.height)).length ≤ j := by
      rw [List.length_range, Nat.mul_comm]
      omega
    rw [if_neg hj, List.getElem?_eq_none hj3]
    rfl

theorem convertImage_eq (MaxRGB : Nat) (image : Image) (out : collieBMPA)
    (hW : image.width < 2147483648) (hH : image.height < 2147483648)
    (hov : image.width * image.height < 2147483648) :
    convertImage MaxRGB image out =
      .ok { out with width := image.width, height := image.height,
                     pixels := rowMajorPixels MaxRGB image } := by
  have hw : image.width % 4294967296 = image.width := Nat.mod_eq_of_lt (by omega)
  have hh : image.height % 4294967296 = image.height := Nat.mod_eq_of_lt (by omega)
  obtain ⟨next, hnext, hlen, hget⟩ :=
    convertRows_spec MaxRGB image image.height hov image.height (le_refl _)
      (List.replicate (image.width * image.height) ⟨0, 0, 0, 0⟩) (List.length_replicate _ _)
  have hpx : next = rowMajorPixels MaxRGB image := by
    apply List.ext_getElem?
    intro j
    rw [hget j, getElem_opt_rowMajorPixels]
    by_cases hj : j < image.height * image.width
    · rw [if_pos hj, if_pos hj]
    · have hj3 : (List.replicate (image.width * image.height)
          (⟨0, 0, 0, 0⟩ : collieBMPAPixel)).length ≤ j := by
        rw [List.length_replicate, Nat.mul_comm]
        omega
      rw [if_neg hj, if_neg hj, List.getElem?_eq_none hj3]
  unfold convertImage
  rw [hw, hh]
  simp only []
  rw [newPixels_eq image.width image.height hov, hnext, hpx]

theorem run_ok (MaxRGB : Nat) (source : MetaSource) (image : Image)
    (c : List Byte) (out : collieBMPA) (hload : loadInfo source = .ok (c, out))
    (hW : image.width < 2147483648) (hH : image.height < 2147483648)
    (hov : image.width * image.height < 2147483648)
    (han : out.animations.length = out.animationCount) :
    run MaxRGB source (.ok image) =
      { termination := .returned 0, error := none, imageRead := true,
        outFile := some (c ++ [0] ++ leBytes 4 image.width ++ leBytes 4 image.height ++
          leBytes 2 out.gridW ++ leBytes 2 out.gridH ++
          leBytes 2 out.rotatePointX ++ leBytes 2 out.rotatePointY ++
          (rowMajorPixels MaxRGB image).flatMap pixelBytes ++ leBytes 4 out.animationCount ++
          out.animations.flatMap clipBytes) } := by
  have hw := writeBmpa_eq c
    { out with width := image.width, height := image.height,
               pixels := rowMajorPixels MaxRGB image }
    (length_rowMajorPixels MaxRGB image) hov han
  unfold run
  rw [hload]
  simp only []
  rw [convertImage_eq MaxRGB image out hW hH hov]
  simp only []
  rw [hw]

theorem bitLengthAux_spec (fuel n : Nat) (h : n ≤ fuel) (hn : 0 < n) :
    2 ^ (bitLengthAux fuel n - 1) ≤ n ∧ n < 2 ^ bitLengthAux fuel n := by
  induction fuel generalizing n with
  | zero => omega
  | succ fuel ih =>
    have hne : n ≠ 0 := by omega
    simp only [bitLengthAux, hne, if_false]
    by_cases h2 : n / 2 = 0
    · have h1 : n = 1 := by omega
      subst h1
      cases fuel <;> simp [bitLengthAux]
    · have hpos : 0 < n / 2 := Nat.pos_of_ne_zero h2
      obtain ⟨hlo, hhi⟩ := ih (n / 2) (by omega) hpos
      have hb : 1 ≤ bitLengthAux fuel (n / 2) := by
        by_contra hc
        have h0 : bitLengthAux fuel (n / 2) = 0 := by omega
        rw [h0] at hhi
        simp at hhi
        omega
      constructor
      · have e : bitLengthAux fuel (n / 2) + 1 - 1 = (bitLengthAux fuel (n / 2) - 1) + 1 := by
          omega
        rw [e, pow_succ]
        omega
      · rw [pow_succ]
        omega

theorem bitLength_spec (n : Nat) (hn : 0 < n) :
    2 ^ (bitLength n - 1) ≤ n ∧ n < 2 ^ bitLength n ∧ 1 ≤ bitLength n := by
  obtain ⟨h1, h2⟩ := bitLengthAux_spec n n (le_refl _) hn
  refine ⟨h1, h2, ?_⟩
  by_contra hc
  have h0 : bitLength n = 0 := by omega
  unfold bitLength at h0
  rw [h0] at h2
  simp at h2
  omega

theorem roundBits_bounds (q sticky s : Nat) (hs : sticky ≤ 1) :
    q / 2 ^ s ≤ roundBits q sticky s ∧ roundBits q sticky s ≤ q / 2 ^ s + 1 := by
  have hdiv : (2 * q + sticky) / 2 ^ (s + 1) = q / 2 ^ s := by
    rw [pow_succ, Nat.mul_comm (2 ^ s) 2, ← Nat.div_div_eq_div_mul]
    have h2 : (2 * q + sticky) / 2 = q := by omega
    rw [h2]
  unfold roundBits
  rw [hdiv]
  split <;> omega

theorem excess_spec (q : Nat) (hq : 16777216 ≤ q) :
    (excess q = 1 ∨ excess q = 2) ∧ 2 ^ (excess q + 23) ≤ q := by
  unfold excess
  by_cases h : q < 33554432
  · rw [if_pos h]
    exact ⟨Or.inl rfl, by norm_num; exact hq⟩
  · rw [if_neg h]
    exact ⟨Or.inr rfl, by norm_num; omega⟩

theorem scaled_quotient_ge (n d : Nat) (hn : 0 < n) (hd : 0 < d) :
    0 < d * 2 ^ (-(scaleShift n d)).toNat ∧
      16777216 ≤ (n * 2 ^ (scaleShift n d).toNat) / (d * 2 ^ (-(scaleShift n d)).toNat) := by
  obtain ⟨hnlo, _, hn1⟩ := bitLength_spec n hn
  obtain ⟨_, hdhi, hd1⟩ := bitLength_spec d hd
  have hden : 0 < d * 2 ^ (-(scaleShift n d)).toNat := Nat.mul_pos hd (Nat.pow_pos (by decide))
  refine ⟨hden, ?_⟩
  rw [Nat.le_div_iff_mul_le hden]
  unfold scaleShift
  by_cases hc : bitLength n ≤ 25 + bitLength d
  · have e1 : (25 + (bitLength d : Int) - (bitLength n : Int)).toNat =
        25 + bitLength d - bitLength n := by omega
    have e2 : (-(25 + (bitLength d : Int) - (bitLength n : Int))).toNat = 0 := by omega
    rw [e1, e2, pow_zero, Nat.mul_one]
    have h1 : 16777216 * d ≤ 2 ^ (24 + bitLength d) := by
      rw [pow_add]
      have : (2 : Nat) ^ 24 = 16777216 := by norm_num
      rw [this]
      exact Nat.mul_le_mul_left _ (le_of_lt hdhi)
    have h2 : 2 ^ (24 + bitLength d) =
        2 ^ (bitLength n - 1) * 2 ^ (25 + bitLength d - bitLength n) := by
      rw [← pow_add]
      congr 1
      omega
    calc 16777216 * d ≤ 2 ^ (24 + bitLength d) := h1
      _ = 2 ^ (bitLength n - 1) * 2 ^ (25 + bitLength d - bitLength n) := h2
      _ ≤ n * 2 ^ (25 + bitLength d - bitLength n) := Nat.mul_le_mul_right _ hnlo
  · have e1 : (25 + (bitLength d : Int) - (bitLength n : Int)).toNat = 0 := by omega
    have e2 : (-(25 + (bitLength d : Int) - (bitLength n : Int))).toNat =
        bitLength n - 25 - bitLength d := by omega
    rw [e1, e2, pow_zero, Nat.mul_one]
    have h2 : 2 ^ (bitLength n - 1) =
        16777216 * (2 ^ bitLength d * 2 ^ (bitLength n - 25 - bitLength d)) := by
      have : (16777216 : Nat) = 2 ^ 24 := by norm_num
      rw [this, ← pow_add, ← pow_add]
      congr 1
      omega
    calc 16777216 * (d * 2 ^ (bitLength n - 25 - bitLength d))
        ≤ 16777216 * (2 ^ bitLength d * 2 ^ (bitLength n - 25 - bitLength d)) :=
          Nat.mul_le_mul_left _ (Nat.mul_le_mul_right _ (le_of_lt hdhi))
      _ = 2 ^ (bitLength n - 1) := h2.symm
      _ ≤ n := hnlo

theorem roundScaled_bounds (num den : Nat) (e : Int) (hden : 0 < den)
    (hq : 16777216 ≤ num / den) :
    (num : ℚ) / (den : ℚ) * (2 : ℚ) ^ e * (1 - 1 / 8388608) ≤ (roundScaled num den e).toRat ∧
      (roundScaled num den e).toRat ≤
        (num : ℚ) / (den : ℚ) * (2 : ℚ) ^ e * (1 + 1 / 8388608) := by
  have hdenq : (0 : ℚ) < (den : ℚ) := by exact_mod_cast hden
  have h1 : ((num / den : Nat) : ℚ) ≤ (num : ℚ) / (den : ℚ) := by
    rw [le_div_iff₀ hdenq]
    exact_mod_cast Nat.div_mul_le_self num den
  have h2 : (num : ℚ) / (den : ℚ) < ((num / den : Nat) : ℚ) + 1 := by
    rw [div_lt_iff₀ hdenq]
    have h3 : num < (num / den + 1) * den := by
      rw [Nat.mul_comm]
      exact Nat.lt_mul_div_succ num hden
    exact_mod_cast h3
  obtain ⟨hs, hsq⟩ := excess_spec (num / den) hq
  have hbits := roundBits_bounds (num / den) (if num % den = 0 then 0 else 1)
    (excess (num / den)) (by split <;> omega)
  have hpow : (0 : ℚ) < (2 : ℚ) ^ e := zpow_pos (by norm_num) e
  have hval : (roundScaled num den e).toRat =
      ((roundBits (num / den) (if num % den = 0 then 0 else 1) (excess (num / den)) : Nat) : ℚ) *
        (2 : ℚ) ^ (excess (num / den)) * (2 : ℚ) ^ e := by
    unfold Binary32.toRat roundScaled
    simp only []
    rw [zpow_add₀ (by norm_num : (2 : ℚ) ≠ 0), zpow_natCast]
    ring
  rw [hval]
  generalize hm : roundBits (num / den) (if num % den = 0 then 0 else 1) (excess (num / den)) = m
    at hbits
  generalize hqd : num / den = q at h1 h2 hs hsq hbits hq
  generalize hX : (num : ℚ) / (den : ℚ) = X at h1 h2
  have hqq : (16777216 : ℚ) ≤ (q : ℚ) := by exact_mod_cast hq
  rcases hs with hs1 | hs2
  · rw [hs1] at hbits hsq ⊢
    have hm0lo : q / 2 ^ 1 * 2 ≤ q := by
      have := Nat.div_mul_le_self q 2
      simpa using this
    have hm0hi : q < (q / 2 ^ 1 + 1) * 2 := by omega
    have hmlo : (q : ℚ) - 1 ≤ (m : ℚ) * 2 := by
      have : q ≤ m * 2 + 1 := by omega
      have h' : (q : ℚ) ≤ (m : ℚ) * 2 + 1 := by exact_mod_cast this
      linarith
    have hmhi : (m : ℚ) * 2 ≤ (q : ℚ) + 2 := by
      have : m * 2 ≤ q + 2 := by omega
      exact_mod_cast this
    constructor
    · have : X * (1 - 1 / 8388608) ≤ (m : ℚ) * 2 ^ 1 := by
        norm_num
        linarith
      calc X * 2 ^ e * (1 - 1 / 8388608) = X * (1 - 1 / 8388608) * 2 ^ e := by ring
        _ ≤ (m : ℚ) * 2 ^ 1 * 2 ^ e := mul_le_mul_of_nonneg_right this (le_of_lt hpow)
    · have : (m : ℚ) * 2 ^ 1 ≤ X * (1 + 1 / 8388608) := by
        norm_num
        linarith
      calc (m : ℚ) * 2 ^ 1 * 2 ^ e ≤ X * (1 + 1 / 8388608) * 2 ^ e :=
            mul_le_mul_of_nonneg_right this (le_of_lt hpow)
        _ = X * 2 ^ e * (1 + 1 / 8388608) := by ring
  · rw [hs2] at hbits hsq ⊢
    have hq25 : (33554432 : ℚ) ≤ (q : ℚ) := by
      have : 33554432 ≤ q := by
        have h' : (2 : Nat) ^ (2 + 23) = 33554432 := by norm_num
        omega
      exact_mod_cast this
    have hmlo : (q : ℚ) - 3 ≤ (m : ℚ) * 4 := by
      have : q ≤ m * 4 + 3 := by omega
      have h' : (q : ℚ) ≤ (m : ℚ) * 4 + 3 := by exact_mod_cast this
      linarith
    have hmhi : (m : ℚ) * 4 ≤ (q : ℚ) + 4 := by
      have : m * 4 ≤ q + 4 := by omega
      exact_mod_cast this
    constructor
    · have : X * (1 - 1 / 8388608) ≤ (m : ℚ) * 2 ^ 2 := by
        norm_num
        linarith
      calc X * 2 ^ e * (1 - 1 / 8388608) = X * (1 - 1 / 8388608) * 2 ^ e := by ring
        _ ≤ (m : ℚ) * 2 ^ 2 * 2 ^ e := mul_le_mul_of_nonneg_right this (le_of_lt hpow)
    · have : (m : ℚ) * 2 ^ 2 ≤ X * (1 + 1 / 8388608) := by
        norm_num
        linarith
      calc (m : ℚ) * 2 ^ 2 * 2 ^ e ≤ X * (1 + 1 / 8388608) * 2 ^ e :=
            mul_le_mul_of_nonneg_right this (le_of_lt hpow)
        _ = X * 2 ^ e * (1 + 1 / 8388608) := by ring

theorem two_zpow_split (p : Int) :
    (2 : ℚ) ^ p = (2 : ℚ) ^ p.toNat / (2 : ℚ) ^ (-p).toNat := by
  rcases le_total 0 p with h | h
  · have e1 : (-p).toNat = 0 := by omega
    have e2 : p = (p.toNat : Int) := by omega
    rw [e1, pow_zero, div_one]
    conv_lhs => rw [e2]
    exact zpow_natCast 2 p.toNat
  · have e1 : p.toNat = 0 := by omega
    have e2 : p = -((-p).toNat : Int) := by omega
    rw [e1, pow_zero, one_div]
    conv_lhs => rw [e2]
    rw [zpow_neg, zpow_natCast]

theorem roundBinary32_bounds (n d : Nat) (k : Int) (hn : 0 < n) (hd : 0 < d) :
    (n : ℚ) / (d : ℚ) * (2 : ℚ) ^ k * (1 - 1 / 8388608) ≤ (roundBinary32 n d k).toRat ∧
      (roundBinary32 n d k).toRat ≤ (n : ℚ) / (d : ℚ) * (2 : ℚ) ^ k * (1 + 1 / 8388608) := by
  obtain ⟨hden, hq⟩ := scaled_quotient_ge n d hn hd
  have hb := roundScaled_bounds (n * 2 ^ (scaleShift n d).toNat)
    (d * 2 ^ (-(scaleShift n d)).toNat) (k - scaleShift n d) hden hq
  have hne : n ≠ 0 := by omega
  have hdq : (d : ℚ) ≠ 0 := by
    have : (0 : ℚ) < (d : ℚ) := by exact_mod_cast hd
    exact ne_of_gt this
  have hx : ((n * 2 ^ (scaleShift n d).toNat : Nat) : ℚ) /
      ((d * 2 ^ (-(scaleShift n d)).toNat : Nat) : ℚ) * (2 : ℚ) ^ (k - scaleShift n d) =
      (n : ℚ) / (d : ℚ) * (2 : ℚ) ^ k := by
    have h2 : (2 : ℚ) ≠ 0 := by norm_num
    rw [zpow_sub₀ h2, two_zpow_split (scaleShift n d)]
    push_cast
    have ha : ((2 : ℚ) ^ (scaleShift n d).toNat) ≠ 0 := pow_ne_zero _ h2
    have hb2 : ((2 : ℚ) ^ (-(scaleShift n d)).toNat) ≠ 0 := pow_ne_zero _ h2
    field_simp
    ring
  rw [hx] at hb
  unfold roundBinary32
  rw [if_neg hne]
  exact hb

theorem toRat_nonneg (a : Binary32) : 0 ≤ a.toRat := by
  unfold Binary32.toRat
  have : (0 : ℚ) < (2 : ℚ) ^ a.exponent := zpow_pos (by norm_num) _
  positivity

theorem mantissa_pos_of_toRat_pos (a : Binary32) (h : 0 < a.toRat) : 0 < a.mantissa := by
  rcases Nat.eq_zero_or_pos a.mantissa with h0 | h0
  · unfold Binary32.toRat at h
    rw [h0] at h
    simp at h
  · exact h0

theorem roundBinary32_pos (n d : Nat) (k : Int) (hn : 0 < n) (hd : 0 < d) :
    0 < (roundBinary32 n d k).mantissa := by
  apply mantissa_pos_of_toRat_pos
  have hb := (roundBinary32_bounds n d k hn hd).1
  have hnq : (0 : ℚ) < (n : ℚ) := by exact_mod_cast hn
  have hdq : (0 : ℚ) < (d : ℚ) := by exact_mod_cast hd
  have hp : (0 : ℚ) < (2 : ℚ) ^ k := zpow_pos (by norm_num) _
  have hx : (0 : ℚ) < (n : ℚ) / (d : ℚ) * (2 : ℚ) ^ k * (1 - 1 / 8388608) := by
    have : (0 : ℚ) < (n : ℚ) / (d : ℚ) := div_pos hnq hdq
    have h3 : (0 : ℚ) < 1 - 1 / 8388608 := by norm_num
    positivity
  linarith

theorem roundBinary32_zero (d : Nat) (k : Int) : roundBinary32 0 d k = ⟨0, 0⟩ := by
  unfold roundBinary32
  rw [if_pos rfl]

theorem roundBinary32_self (n : Nat) (hn : 0 < n) : roundBinary32 n n 0 = ⟨8388608, -23⟩ := by
  have hne : n ≠ 0 := by omega
  have hp : scaleShift n n = 25 := by
    unfold scaleShift
    omega
  have e1 : ((25 : Int)).toNat = 25 := rfl
  have e2 : (-(25 : Int)).toNat = 0 := rfl
  have hq : n * 2 ^ 25 / n = 2 ^ 25 := Nat.mul_div_cancel_left _ hn
  have hr : n * 2 ^ 25 % n = 0 := Nat.mul_mod_right n _
  unfold roundBinary32
  rw [if_neg hne, hp, e1, e2, pow_zero, Nat.mul_one]
  unfold roundScaled
  rw [hq, hr, if_pos rfl]
  decide

theorem truncToInt_of_bounds (r : Binary32) (a : Nat) (h1 : (a : ℚ) ≤ r.toRat)
    (h2 : r.toRat < (a : ℚ) + 1) : truncToInt r = (a : Int) := by
  unfold truncToInt
  unfold Binary32.toRat at h1 h2
  by_cases he : 0 ≤ r.exponent
  · rw [if_pos he]
    have e2 : r.exponent = (r.exponent.toNat : Int) := by omega
    rw [e2, zpow_natCast] at h1 h2
    have g1 : a ≤ r.mantissa * 2 ^ r.exponent.toNat := by exact_mod_cast h1
    have g2 : r.mantissa * 2 ^ r.exponent.toNat < a + 1 := by exact_mod_cast h2
    have : r.mantissa * 2 ^ r.exponent.toNat = a := by omega
    rw [this]
  · rw [if_neg he]
    have e2 : r.exponent = -((-r.exponent).toNat : Int) := by omega
    have hp : (0 : ℚ) < (2 : ℚ) ^ (-r.exponent).toNat := pow_pos (by norm_num) _
    rw [e2, zpow_neg, zpow_natCast, ← div_eq_mul_inv] at h1 h2
    rw [le_div_iff₀ hp] at h1
    rw [div_lt_iff₀ hp] at h2
    have g1 : a * 2 ^ (-r.exponent).toNat ≤ r.mantissa := by exact_mod_cast h1
    have g2 : r.mantissa < (a + 1) * 2 ^ (-r.exponent).toNat := by exact_mod_cast h2
    have hpn : 0 < 2 ^ (-r.exponent).toNat := Nat.pow_pos (by decide)
    have : r.mantissa / 2 ^ (-r.exponent).toNat = a := by
      apply Nat.div_eq_of_lt_le
      · exact g1
      · exact g2
    rw [this]

theorem div_toRat_arg (a b : Binary32) (hb : 0 < b.mantissa) :
    (a.mantissa : ℚ) / (b.mantissa : ℚ) * (2 : ℚ) ^ (a.exponent - b.exponent) =
      a.toRat / b.toRat := by
  have h2 : (2 : ℚ) ≠ 0 := by norm_num
  have hbq : (b.mantissa : ℚ) ≠ 0 := by
    have : (0 : ℚ) < (b.mantissa : ℚ) := by exact_mod_cast hb
    exact ne_of_gt this
  have hpb : (2 : ℚ) ^ b.exponent ≠ 0 := zpow_ne_zero _ h2
  unfold Binary32.toRat
  rw [zpow_sub₀ h2]
  field_simp

theorem ofNat_pos (v : Nat) (hv : 0 < v) : 0 < (Binary32.ofNat v).mantissa :=
  roundBinary32_pos v 1 0 hv (by decide)

theorem ofNat_bounds (v : Nat) (hv : 0 < v) :
    (v : ℚ) * (1 - 1 / 8388608) ≤ (Binary32.ofNat v).toRat ∧
      (Binary32.ofNat v).toRat ≤ (v : ℚ) * (1 + 1 / 8388608) := by
  have h := roundBinary32_bounds v 1 0 hv (by decide)
  have e : ((v : ℚ) / ((1 : Nat) : ℚ) * (2 : ℚ) ^ (0 : Int)) = (v : ℚ) := by simp
  rw [e] at h
  exact h

theorem div_pos_mantissa (a b : Binary32) (ha : 0 < a.mantissa) (hb : 0 < b.mantissa) :
    0 < (a.div b).mantissa :=
  roundBinary32_pos a.mantissa b.mantissa (a.exponent - b.exponent) ha hb

theorem div_bounds (a b : Binary32) (ha : 0 < a.mantissa) (hb : 0 < b.mantissa) :
    a.toRat / b.toRat * (1 - 1 / 8388608) ≤ (a.div b).toRat ∧
      (a.div b).toRat ≤ a.toRat / b.toRat * (1 + 1 / 8388608) := by
  have h := roundBinary32_bounds a.mantissa b.mantissa (a.exponent - b.exponent) ha hb
  rw [div_toRat_arg a b hb] at h
  exact h

theorem mulNat_bounds (a : Binary32) (c : Nat) (ha : 0 < a.mantissa) (hc : 0 < c) :
    a.toRat * (c : ℚ) * (1 - 1 / 8388608) ≤ (a.mulNat c).toRat ∧
      (a.mulNat c).toRat ≤ a.toRat * (c : ℚ) * (1 + 1 / 8388608) := by
  have h := roundBinary32_bounds (a.mantissa * c) 1 a.exponent (Nat.mul_pos ha hc) (by decide)
  have e : ((a.mantissa * c : Nat) : ℚ) / ((1 : Nat) : ℚ) * (2 : ℚ) ^ a.exponent =
      a.toRat * (c : ℚ) := by
    unfold Binary32.toRat
    push_cast
    ring
  rw [e] at h
  exact h

theorem scaleSample_bounds (MaxRGB v : Nat) (hv : 0 < v) (hM : 0 < MaxRGB)
    (hexact : (Binary32.ofNat MaxRGB).toRat = (MaxRGB : ℚ)) :
    (v : ℚ) * 255 / (MaxRGB : ℚ) * (1 - 1 / 8388608) ^ 3 ≤ (scaleSample MaxRGB v).toRat ∧
      (scaleSample MaxRGB v).toRat ≤ (v : ℚ) * 255 / (MaxRGB : ℚ) * (1 + 1 / 8388608) ^ 3 := by
  have hMq : (0 : ℚ) < (MaxRGB : ℚ) := by exact_mod_cast hM
  have hvq : (0 : ℚ) < (v : ℚ) := by exact_mod_cast hv
  have hfv := ofNat_bounds v hv
  have hq := div_bounds (Binary32.ofNat v) (Binary32.ofNat MaxRGB) (ofNat_pos v hv)
    (ofNat_pos MaxRGB hM)
  have hr := mulNat_bounds ((Binary32.ofNat v).div (Binary32.ofNat MaxRGB)) 255
    (div_pos_mantissa _ _ (ofNat_pos v hv) (ofNat_pos MaxRGB hM)) (by decide)
  rw [hexact] at hq
  have hs : (scaleSample MaxRGB v).toRat =
      (((Binary32.ofNat v).div (Binary32.ofNat MaxRGB)).mulNat 255).toRat := rfl
  rw [hs]
  generalize (((Binary32.ofNat v).div (Binary32.ofNat MaxRGB)).mulNat 255).toRat = r at hr
  generalize ((Binary32.ofNat v).div (Binary32.ofNat MaxRGB)).toRat = q at hq hr
  generalize (Binary32.ofNat v).toRat = fv at hfv hq
  have hc1 : (0 : ℚ) < 1 - 1 / 8388608 := by norm_num
  have hc2 : (0 : ℚ) < 1 + 1 / 8388608 := by norm_num
  have hfvnn : 0 ≤ fv := le_trans (by positivity) hfv.1
  have hqnn : 0 ≤ q := by
    have : 0 ≤ fv / (MaxRGB : ℚ) * (1 - 1 / 8388608) := by positivity
    exact le_trans this hq.1
  have hcast : ((255 : Nat) : ℚ) = 255 := by norm_num
  rw [hcast] at hr
  have d1 : (v : ℚ) * (1 - 1 / 8388608) / (MaxRGB : ℚ) ≤ fv / (MaxRGB : ℚ) :=
    div_le_div_of_nonneg_right hfv.1 (le_of_lt hMq)
  have d2 : fv / (MaxRGB : ℚ) ≤ (v : ℚ) * (1 + 1 / 8388608) / (MaxRGB : ℚ) :=
    div_le_div_of_nonneg_right hfv.2 (le_of_lt hMq)
  constructor
  · have s1 : (v : ℚ) * (1 - 1 / 8388608) / (MaxRGB : ℚ) * (1 - 1 / 8388608) ≤ q :=
      le_trans (mul_le_mul_of_nonneg_right d1 (le_of_lt hc1)) hq.1
    have s2 : (v : ℚ) * (1 - 1 / 8388608) / (MaxRGB : ℚ) * (1 - 1 / 8388608) * 255 *
        (1 - 1 / 8388608) ≤ q * 255 * (1 - 1 / 8388608) :=
      mul_le_mul_of_nonneg_right (mul_le_mul_of_nonneg_right s1 (by norm_num)) (le_of_lt hc1)
    calc (v : ℚ) * 255 / (MaxRGB : ℚ) * (1 - 1 / 8388608) ^ 3
        = (v : ℚ) * (1 - 1 / 8388608) / (MaxRGB : ℚ) * (1 - 1 / 8388608) * 255 *
            (1 - 1 / 8388608) := by ring
      _ ≤ q * 255 * (1 - 1 / 8388608) := s2
      _ ≤ r := hr.1
  · have s1 : q ≤ (v : ℚ) * (1 + 1 / 8388608) / (MaxRGB : ℚ) * (1 + 1 / 8388608) :=
      le_trans hq.2 (mul_le_mul_of_nonneg_right d2 (le_of_lt hc2))
    have s2 : q * 255 * (1 + 1 / 8388608) ≤
        (v : ℚ) * (1 + 1 / 8388608) / (MaxRGB : ℚ) * (1 + 1 / 8388608) * 255 *
          (1 + 1 / 8388608) :=
      mul_le_mul_of_nonneg_right (mul_le_mul_of_nonneg_right s1 (by norm_num)) (le_of_lt hc2)
    calc r ≤ q * 255 * (1 + 1 / 8388608) := hr.2
      _ ≤ (v : ℚ) * (1 + 1 / 8388608) / (MaxRGB : ℚ) * (1 + 1 / 8388608) * 255 *
            (1 + 1 / 8388608) := s2
      _ = (v : ℚ) * 255 / (MaxRGB : ℚ) * (1 + 1 / 8388608) ^ 3 := by ring

theorem scalesExactly_spec (m stride k lo : Nat) (h : scalesExactly m stride k lo = true)
    (i : Nat) (hi : i < 2 ^ k) :
    truncToInt (scaleSample m (lo + i * stride)) =
      (((lo + i * stride) * 255 / m : Nat) : Int) := by
  induction k generalizing lo i with
  | zero =>
    have hi0 : i = 0 := by simpa using hi
    subst hi0
    simp only [scalesExactly, beq_iff_eq] at h
    simpa using h
  | succ k ih =>
    simp only [scalesExactly, Bool.and_eq_true] at h
    by_cases hlt : i < 2 ^ k
    · exact ih lo h.1 i hlt
    · have hj : i - 2 ^ k < 2 ^ k := by
        rw [pow_succ] at hi
        omega
      have e : lo + i * stride = lo + 2 ^ k * stride + (i - 2 ^ k) * stride := by
        have : i = 2 ^ k + (i - 2 ^ k) := by omega
        conv_lhs => rw [this]
        ring
      rw [e]
      exact ih (lo + 2 ^ k * stride) h.2 (i - 2 ^ k) hj

theorem scalesExactly_255 : scalesExactly 255 1 8 0 = true := by decide!

theorem scalesExactly_65535 : scalesExactly 65535 257 8 0 = true := by decide!

theorem ofNat_65535 : (Binary32.ofNat 65535).toRat = ((65535 : Nat) : ℚ) := by
  have h : Binary32.ofNat 65535 = ⟨16776960, -8⟩ := by decide!
  rw [h]
  unfold Binary32.toRat
  norm_num

theorem truncToInt_scaleSample_255 (v : Nat) (hv : v ≤ 255) :
    truncToInt (scaleSample 255 v) = ((v * 255 / 255 : Nat) : Int) := by
  have h := scalesExactly_spec 255 1 8 0 scalesExactly_255 v (by norm_num; omega)
  simpa using h

theorem truncToInt_scaleSample_65535 (v : Nat) (hv : v ≤ 65535) :
    truncToInt (scaleSample 65535 v) = ((v * 255 / 65535 : Nat) : Int) := by
  have hdiv : v * 255 / 65535 = v / 257 := by omega
  by_cases hb : v % 257 = 0
  · have hi : v / 257 < 2 ^ 8 := by norm_num; omega
    have h := scalesExactly_spec 65535 257 8 0 scalesExactly_65535 (v / 257) hi
    have e : 0 + v / 257 * 257 = v := by omega
    rw [e] at h
    exact h
  · have hv0 : 0 < v := by omega
    have hb1 : 1 ≤ v % 257 := by omega
    have hb2 : v % 257 ≤ 256 := by omega
    have ha : v / 257 ≤ 254 := by omega
    have hsplit : v = 257 * (v / 257) + v % 257 := (Nat.div_add_mod v 257).symm
    obtain ⟨lo, hi⟩ := scaleSample_bounds 65535 v hv0 (by decide) ofNat_65535
    rw [hdiv]
    apply truncToInt_of_bounds
    · have hvq : (v : ℚ) = 257 * ((v / 257 : Nat) : ℚ) + ((v % 257 : Nat) : ℚ) := by
        exact_mod_cast hsplit
      have hbq : (1 : ℚ) ≤ ((v % 257 : Nat) : ℚ) := by exact_mod_cast hb1
      have haq : ((v / 257 : Nat) : ℚ) ≤ 254 := by exact_mod_cast ha
      have hanq : (0 : ℚ) ≤ ((v / 257 : Nat) : ℚ) := Nat.cast_nonneg _
      refine le_trans ?_ lo
      rw [hvq]
      norm_num
      linarith
    · have hvq : (v : ℚ) = 257 * ((v / 257 : Nat) : ℚ) + ((v % 257 : Nat) : ℚ) := by
        exact_mod_cast hsplit
      have hbq : ((v % 257 : Nat) : ℚ) ≤ 256 := by exact_mod_cast hb2
      have haq : ((v / 257 : Nat) : ℚ) ≤ 254 := by exact_mod_cast ha
      have hanq : (0 : ℚ) ≤ ((v / 257 : Nat) : ℚ) := Nat.cast_nonneg _
      refine lt_of_le_of_lt hi ?_
      rw [hvq]
      norm_num
      linarith

theorem scaleSample_zero (MaxRGB : Nat) : scaleSample MaxRGB 0 = ⟨0, 0⟩ := by
  have h0 : Binary32.ofNat 0 = ⟨0, 0⟩ := roundBinary32_zero 1 0
  have h1 : (Binary32.ofNat 0).div (Binary32.ofNat MaxRGB) = ⟨0, 0⟩ := by
    rw [h0]
    exact roundBinary32_zero _ _
  unfold scaleSample
  rw [h1]
  exact roundBinary32_zero 1 0

theorem scaleSample_full (MaxRGB : Nat) (hM : 0 < MaxRGB) :
    truncToInt (scaleSample MaxRGB MaxRGB) = 255 := by
  have h1 : (Binary32.ofNat MaxRGB).div (Binary32.ofNat MaxRGB) = ⟨8388608, -23⟩ := by
    unfold Binary32.div
    rw [sub_self]
    exact roundBinary32_self _ (ofNat_pos MaxRGB hM)
  unfold scaleSample
  rw [h1]
  decide!

theorem truncToInt_scaleSample_zero (MaxRGB : Nat) : truncToInt (scaleSample MaxRGB 0) = 0 := by
  rw [scaleSample_zero]
  rfl

theorem scaled_le (MaxRGB v : Nat) (hv : v ≤ MaxRGB) : v * 255 / MaxRGB ≤ 255 := by
  apply Nat.div_le_of_le_mul
  calc v * 255 ≤ MaxRGB * 255 := Nat.mul_le_mul_right 255 hv

theorem toUChar_natCast (k : Nat) (h : k ≤ 255) : toUChar (k : Int) = k := by
  unfold toUChar
  omega

theorem toUChar_complement (k : Nat) (h : k ≤ 255) : toUChar (255 - (k : Int)) = 255 - k := by
  unfold toUChar
  omega

theorem truncToInt_scaleSample (MaxRGB v : Nat) (hM : MaxRGB = 255 ∨ MaxRGB = 65535)
    (hv : v ≤ MaxRGB) :
    truncToInt (scaleSample MaxRGB v) = ((v * 255 / MaxRGB : Nat) : Int) := by
  rcases hM with rfl | rfl
  · exact truncToInt_scaleSample_255 v hv
  · exact truncToInt_scaleSample_65535 v hv

theorem toUChar_scaled (MaxRGB v : Nat) (hM : MaxRGB = 255 ∨ MaxRGB = 65535)
    (hv : v ≤ MaxRGB) :
    toUChar (truncToInt (scaleSample MaxRGB v)) = v * 255 / MaxRGB := by
  rw [truncToInt_scaleSample MaxRGB v hM hv, toUChar_natCast _ (scaled_le MaxRGB v hv)]

theorem toUChar_inverted (MaxRGB v : Nat) (hM : MaxRGB = 255 ∨ MaxRGB = 65535)
    (hv : v ≤ MaxRGB) :
    toUChar (255 - truncToInt (scaleSample MaxRGB v)) = 255 - v * 255 / MaxRGB := by
  rw [truncToInt_scaleSample MaxRGB v hM hv, toUChar_complement _ (scaled_le MaxRGB v hv)]

theorem convertPixel_eq (MaxRGB : Nat) (p : PixelPacket)
    (hM : MaxRGB = 255 ∨ MaxRGB = 65535)
    (hr : p.red ≤ MaxRGB) (hg : p.green ≤ MaxRGB) (hb : p.blue ≤ MaxRGB)
    (ho : p.opacity ≤ MaxRGB) :
    convertPixel MaxRGB p =
      ⟨p.red * 255 / MaxRGB, p.green * 255 / MaxRGB, p.blue * 255 / MaxRGB,
        255 - p.opacity * 255 / MaxRGB⟩ := by
  unfold convertPixel
  rw [toUChar_scaled MaxRGB _ hM hr, toUChar_scaled MaxRGB _ hM hg,
    toUChar_scaled MaxRGB _ hM hb, toUChar_inverted MaxRGB _ hM ho]

theorem convertPixel_white (MaxRGB : Nat) (hM : 0 < MaxRGB) :
    convertPixel MaxRGB ⟨MaxRGB, MaxRGB, MaxRGB, 0⟩ = ⟨255, 255, 255, 255⟩ := by
  unfold convertPixel
  simp only [scaleSample_full MaxRGB hM, truncToInt_scaleSample_zero]
  rfl

theorem convertPixel_clear (MaxRGB : Nat) (hM : 0 < MaxRGB) :
    convertPixel MaxRGB ⟨0, 0, 0, MaxRGB⟩ = ⟨0, 0, 0, 0⟩ := by
  unfold convertPixel
  simp only [scaleSample_full MaxRGB hM, truncToInt_scaleSample_zero]
  rfl

theorem convertPixel_red (MaxRGB : Nat) (hM : 0 < MaxRGB) :
    convertPixel MaxRGB ⟨MaxRGB, 0, 0, 0⟩ = ⟨255, 0, 0, 255⟩ := by
  unfold convertPixel
  simp only [scaleSample_full MaxRGB hM, truncToInt_scaleSample_zero]
  rfl

theorem toUChar_le (z : Int) : toUChar z ≤ 255 := by
  unfold toUChar
  omega

theorem readUShort_of_not_contains (e : Json) (key : String) (h : e.contains key = false) :
    ∃ err, readUShort e key = .error err := by
  cases e with
  | null => exact ⟨_, rfl⟩
  | bool b => exact ⟨_, rfl⟩
  | num n => exact ⟨_, rfl⟩
  | str s => exact ⟨_, rfl⟩
  | arr xs => exact ⟨_, rfl⟩
  | obj kvs =>
    have hk : kvs.lookup key = none := by
      cases hl : kvs.lookup key with
      | none => rfl
      | some v => simp [Json.contains, hl] at h
    exact ⟨Fatal.jsonException 302, by simp [readUShort, Json.atKey, hk, Json.getUShort]⟩

theorem animationStep_error (animations : Json) (out : collieBMPA) (i : Nat) :
    ∃ err, animationStep animations out i = .error err := by
  by_cases hm : missingValue (animations.atIndex i) = true
  · refine ⟨Fatal.animationMissingValue i, ?_⟩
    unfold animationStep
    simp only [hm, if_true]
  · have hs : (animations.atIndex i).contains "startFrame" = false := by
      cases hc : (animations.atIndex i).contains "startFrame" with
      | false => rfl
      | true => simp [missingValue, hc] at hm
    obtain ⟨err, herr⟩ := readUShort_of_not_contains _ "startFrame" hs
    cases hb : readUShort (animations.atIndex i) "baseFrame" with
    | error e =>
      refine ⟨e, ?_⟩
      unfold animationStep
      simp only [hm, hb, Bool.false_eq_true, if_false]
    | ok v =>
      refine ⟨err, ?_⟩
      unfold animationStep
      simp only [hm, hb, herr, Bool.false_eq_true, if_false]

theorem animationStep_of_startFrame (animations : Json) (out : collieBMPA) (i : Nat)
    (h : (animations.atIndex i).contains "startFrame" = true) :
    animationStep animations out i = .error (Fatal.animationMissingValue i) := by
  have hm : missingValue (animations.atIndex i) = true := by simp [missingValue, h]
  unfold animationStep
  simp only [hm, if_true]

theorem loadAnimations_zero (animations : Json) (out : collieBMPA) :
    loadAnimations 0 animations out = .ok out := rfl

theorem loadAnimations_succ (bound : Nat) (animations : Json) (out : collieBMPA) :
    loadAnimations (bound + 1) animations out = animationStep animations out 0 := by
  obtain ⟨err, herr⟩ := animationStep_error animations out 0
  unfold loadAnimations
  rw [List.range_succ_eq_map]
  simp only [forEach, herr]

theorem loadAnimations_error (bound : Nat) (hb : 0 < bound) (animations : Json)
    (out : collieBMPA) : ∃ err, loadAnimations bound animations out = .error err := by
  obtain ⟨k, rfl⟩ : ∃ k, bound = k + 1 := ⟨bound - 1, by omega⟩
  rw [loadAnimations_succ]
  exact animationStep_error animations out 0

theorem loadAnimations_ok (bound : Nat) (animations : Json) (out loaded : collieBMPA)
    (h : loadAnimations bound animations out = .ok loaded) : bound = 0 ∧ loaded = out := by
  cases bound with
  | zero =>
    rw [loadAnimations_zero] at h
    exact ⟨rfl, (Except.ok.inj h).symm⟩
  | succ k =>
    obtain ⟨err, herr⟩ := loadAnimations_error (k + 1) (Nat.succ_pos k) animations out
    rw [herr] at h
    cases h

theorem loadAnimationsSection_ok (info : Json) (out loaded : collieBMPA)
    (h : loadAnimationsSection info out = .ok loaded) : loaded = out := by
  unfold loadAnimationsSection at h
  by_cases hc : info.contains "animations" = true
  · simp only [hc, if_true] at h
    cases ha : info.atKey "animations" with
    | error e => simp only [ha] at h; cases h
    | ok animations =>
      simp only [ha] at h
      by_cases harr : animations.isArray = true
      · simp only [harr, Bool.not_true, Bool.false_eq_true, if_false] at h
        exact (loadAnimations_ok _ _ _ _ h).2
      · simp only [Bool.not_eq_true] at harr
        simp only [harr, Bool.not_false, if_true] at h
        cases h
  · simp only [hc, Bool.false_eq_true, if_false] at h
    exact (Except.ok.inj h).symm

theorem loadAnimationsSection_absent (info : Json) (out : collieBMPA)
    (h : info.contains "animations" = false) : loadAnimationsSection info out = .ok out := by
  unfold loadAnimationsSection
  simp only [h, Bool.false_eq_true, if_false]

theorem contains_obj (kvs : List (String × Json)) (key : String) :
    (Json.obj kvs).contains key = (kvs.lookup key).isSome := rfl

theorem loadComment_obj (kvs : List (String × Json)) (c0 : List Byte)
    (hc : ∀ v, kvs.lookup "comment" = some v → ∃ s, v = Json.str s) :
    loadComment (.obj kvs) c0 =
      .ok (if (kvs.lookup "comment").isSome then givenComment kvs else c0) := by
  unfold loadComment givenComment
  rw [contains_obj]
  cases hl : kvs.lookup "comment" with
  | none => simp
  | some v =>
    obtain ⟨s, rfl⟩ := hc v hl
    simp [Json.atKey, hl, Json.getString]

theorem loadUShort_obj (kvs : List (String × Json)) (key : String)
    (hn : ∀ v, kvs.lookup key = some v → ∃ n : Nat, n < 65536 ∧ v = Json.num (n : Int)) :
    loadUShort (.obj kvs) key = .ok (givenUShort kvs key) := by
  unfold loadUShort givenUShort
  rw [contains_obj]
  cases hl : kvs.lookup key with
  | none => simp
  | some v =>
    obtain ⟨n, hlt, rfl⟩ := hn v hl
    have hmod : ((n : Int) % 65536).toNat = n := by omega
    simp [readUShort, Json.atKey, hl, Json.getUShort, hmod]

theorem loadMetadata_not_obj (info : Json) (hno : ∀ kvs, info ≠ Json.obj kvs)
    (c : List Byte) :
    loadMetadata info c initialBmpa = .ok (c, initialBmpa) := by
  cases info with
  | obj kvs => exact absurd rfl (hno kvs)
  | null => rfl
  | bool b => rfl
  | num n => rfl
  | str s => rfl
  | arr xs => rfl

theorem loadMetadata_ok_shape (info : Json) (c0 c : List Byte) (out0 out : collieBMPA)
    (h : loadMetadata info c0 out0 = .ok (c, out)) :
    loadComment info c0 = .ok c ∧
      loadUShort info "gridW" = .ok out.gridW ∧ loadUShort info "gridH" = .ok out.gridH ∧
      loadUShort info "rotatePointX" = .ok out.rotatePointX ∧
      loadUShort info "rotatePointY" = .ok out.rotatePointY ∧
      out = { out0 with gridW := out.gridW, gridH := out.gridH,
                        rotatePointX := out.rotatePointX, rotatePointY := out.rotatePointY } ∧
      loadAnimationsSection info out = .ok out := by
  unfold loadMetadata at h
  cases h1 : loadComment info c0 with
  | error e => simp only [h1] at h; cases h
  | ok c1 =>
    cases h2 : loadUShort info "gridW" with
    | error e => simp only [h1, h2] at h; cases h
    | ok g1 =>
      cases h3 : loadUShort info "gridH" with
      | error e => simp only [h1, h2, h3] at h; cases h
      | ok g2 =>
        cases h4 : loadUShort info "rotatePointX" with
        | error e => simp only [h1, h2, h3, h4] at h; cases h
        | ok g3 =>
          cases h5 : loadUShort info "rotatePointY" with
          | error e => simp only [h1, h2, h3, h4, h5] at h; cases h
          | ok g4 =>
            simp only [h1, h2, h3, h4, h5] at h
            cases h6 : loadAnimationsSection info
                { out0 with gridW := g1, gridH := g2, rotatePointX := g3,
                            rotatePointY := g4 } with
            | error e => simp only [h6] at h; cases h
            | ok loaded =>
              simp only [h6] at h
              have hl := loadAnimationsSection_ok _ _ _ h6
              have hp := Except.ok.inj h
              have hc : c1 = c := congrArg Prod.fst hp
              have ho : loaded = out := congrArg Prod.snd hp
              subst hc
              subst ho
              subst hl
              exact ⟨rfl, rfl, rfl, rfl, rfl, rfl, h6⟩

theorem loadMetadata_error_of_section (info : Json) (c0 : List Byte) (out0 : collieBMPA)
    (hs : ∀ out, ∃ err, loadAnimationsSection info out = .error err) :
    ∃ err, loadMetadata info c0 out0 = .error err := by
  cases h : loadMetadata info c0 out0 with
  | error e => exact ⟨e, rfl⟩
  | ok r =>
    obtain ⟨c, out⟩ := r
    have hsec := (loadMetadata_ok_shape info c0 c out0 out h).2.2.2.2.2.2
    obtain ⟨err, herr⟩ := hs out
    rw [herr] at hsec
    cases hsec

theorem loadInfo_ok_shape (source : MetaSource) (c : List Byte) (out : collieBMPA)
    (h : loadInfo source = .ok (c, out)) :
    out.width = 0 ∧ out.height = 0 ∧ out.pixels = [] ∧ out.animationCount = 0 ∧
      out.animations = [] := by
  cases source with
  | absent =>
    have hp := Except.ok.inj h
    have ho : initialBmpa = out := congrArg Prod.snd hp
    subst ho
    exact ⟨rfl, rfl, rfl, rfl, rfl⟩
  | unparsable => cases h
  | parsed info =>
    have hs := (loadMetadata_ok_shape info [] c initialBmpa out h).2.2.2.2.2.1
    rw [hs]
    exact ⟨rfl, rfl, rfl, rfl, rfl⟩

theorem run_of_loadInfo_error (MaxRGB : Nat) (source : MetaSource)
    (decoded : Except String Image) (err : Fatal) (h : loadInfo source = .error err) :
    run MaxRGB source decoded =
      { termination := err.termination, error := some err, imageRead := false,
        outFile := none } := by
  unfold run
  rw [h]

theorem termination_ne_returned (err : Fatal) (code : Nat) :
    err.termination ≠ Termination.returned code := by
  cases err <;> simp [Fatal.termination]

theorem length_leBytes (k v : Nat) : (leBytes k v).length = k := by
  induction k generalizing v with
  | zero => rfl
  | succ k ih => simp [leBytes, ih]

theorem run_output (MaxRGB : Nat) (source : MetaSource) (image : Image)
    (c : List Byte) (out : collieBMPA) (hload : loadInfo source = .ok (c, out))
    (hW : image.width < 2147483648) (hH : image.height < 2147483648)
    (hov : image.width * image.height < 2147483648) :
    run MaxRGB source (.ok image) =
      { termination := .returned 0, error := none, imageRead := true,
        outFile := some ((c ++ [0] ++ leBytes 4 image.width ++ leBytes 4 image.height ++
          leBytes 2 out.gridW ++ leBytes 2 out.gridH ++
          leBytes 2 out.rotatePointX ++ leBytes 2 out.rotatePointY) ++
          (rowMajorPixels MaxRGB image).flatMap pixelBytes ++ [0, 0, 0, 0]) } := by
  obtain ⟨_, _, _, hcount, hanim⟩ := loadInfo_ok_shape source c out hload
  rw [run_ok MaxRGB source image c out hload hW hH hov (by rw [hanim, hcount]; rfl),
    hcount, hanim]
  simp only [List.append_assoc]
  rfl

theorem length_header (c : List Byte) (w h g1 g2 g3 g4 : Nat) :
    (c ++ [0] ++ leBytes 4 w ++ leBytes 4 h ++ leBytes 2 g1 ++ leBytes 2 g2 ++
      leBytes 2 g3 ++ leBytes 2 g4).length = c.length + 17 := by
  simp only [List.length_append, length_leBytes, List.length_cons, List.length_nil]

theorem upToNul_append (c rest : List Byte) (hc : ∀ b ∈ c, b ≠ 0) :
    upToNul (c ++ 0 :: rest) = c := by
  unfold upToNul
  induction c with
  | nil => simp
  | cons b bs ih =>
    have hb : b ≠ 0 := hc b (List.mem_cons_self _ _)
    have ih2 := ih (fun x hx => hc x (List.mem_cons_of_mem _ hx))
    simp [List.takeWhile_cons, hb, ih2]

theorem length_flatMap_pixelBytes (l : List collieBMPAPixel) :
    (l.flatMap pixelBytes).length = 4 * l.length :=
  length_flatMap_const l pixelBytes 4 (fun _ => rfl)

theorem drop_take_flatMap_pixelBytes (l : List collieBMPAPixel) (j : Nat) (p : collieBMPAPixel)
    (hj : l[j]? = some p) :
    ((l.flatMap pixelBytes).drop (4 * j)).take 4 = pixelBytes p := by
  induction l generalizing j with
  | nil => simp at hj
  | cons q rest ih =>
    cases j with
    | zero =>
      simp only [List.getElem?_cons_zero, Option.some.injEq] at hj
      subst hj
      simp [List.flatMap_cons, pixelBytes]
    | succ j =>
      simp only [List.getElem?_cons_succ] at hj
      have h4 : 4 * (j + 1) = (pixelBytes q).length + 4 * j := by
        simp only [pixelBytes, List.length_cons, List.length_nil]
        omega
      rw [List.flatMap_cons, h4, List.drop_append]
      exact ih j hj

theorem pixelSection_output (c pre px post : List Byte) (w h : Nat)
    (hpre : pre.length = c.length + 17) (hpx : px.length = 4 * (w * h)) :
    pixelSection c.length w h (pre ++ px ++ post) = px := by
  unfold pixelSection
  rw [← hpre, List.append_assoc, List.drop_left, ← hpx, List.take_left]

theorem getElem_opt_rowMajorPixels_at (MaxRGB : Nat) (image : Image) (y x : Nat)
    (hy : y < image.height) (hx : x < image.width) :
    (rowMajorPixels MaxRGB image)[y * image.width + x]? =
      some (convertPixel MaxRGB (image.getPixels x y)) := by
  have hlt := rowMajor_lt image.width image.height y x hy hx
  have hdm := rowMajor_div_mod image.width y x hx
  have hlt2 : y * image.width + x < image.height * image.width := by
    rw [Nat.mul_comm image.height]
    exact hlt
  rw [getElem_opt_rowMajorPixels, if_pos hlt2, hdm.1, hdm.2]

/-- C1: for a document whose pixel buffer has width*height records and whose clip table has
animationCount clips, the write step emits the comment bytes, one zero byte, width and height
in four little-endian bytes each, gridW, gridH, rotatePointX, rotatePointY in two little-endian
bytes each, the pixel records as R,G,B,A in buffer order, the clip count in four little-endian
bytes and the clips as baseFrame, startFrame, endFrame, rate in two little-endian bytes each;
the stream has N + 21 + 4*W*H + 8*A bytes. -/
theorem write_step_layout (c : List Byte) (out : collieBMPA)
    (hpx : out.pixels.length = out.width * out.height)
    (hov : out.width * out.height < 2147483648)
    (han : out.animations.length = out.animationCount) :
    ∃ bytes, writeBmpa c out = some bytes ∧
      bytes = c ++ [0] ++
        [out.width % 256, out.width / 256 % 256, out.width / 65536 % 256,
          out.width / 16777216 % 256] ++
        [out.height % 256, out.height / 256 % 256, out.height / 65536 % 256,
          out.height / 16777216 % 256] ++
        [out.gridW % 256, out.gridW / 256 % 256] ++
        [out.gridH % 256, out.gridH / 256 % 256] ++
        [out.rotatePointX % 256, out.rotatePointX / 256 % 256] ++
        [out.rotatePointY % 256, out.rotatePointY / 256 % 256] ++
        out.pixels.flatMap (fun p => [p.r, p.g, p.b, p.a]) ++
        [out.animationCount % 256, out.animationCount / 256 % 256,
          out.animationCount / 65536 % 256, out.animationCount / 16777216 % 256] ++
        out.animations.flatMap (fun a =>
          [a.baseFrame % 256, a.baseFrame / 256 % 256, a.startFrame % 256,
            a.startFrame / 256 % 256, a.endFrame % 256, a.endFrame / 256 % 256,
            a.rate % 256, a.rate / 256 % 256]) ∧
      bytes.length =
        c.length + 21 + 4 * (out.width * out.height) + 8 * out.animationCount := by
  refine ⟨_, writeBmpa_eq c out hpx hov han, ?_, ?_⟩
  · simp only [leBytes_four, leBytes_two]
    rfl
  · have h1 := length_flatMap_const out.pixels pixelBytes 4 (fun _ => rfl)
    have h2 := length_flatMap_const out.animations clipBytes 8 (fun _ => rfl)
    simp only [List.length_append, leBytes_four, leBytes_two, h1, h2, hpx, han,
      List.length_cons, List.length_nil]
    omega

/-- A 2x1 document with the comment "hi" and one clip is written as the 39 bytes below. -/
theorem write_step_layout_witness :
    writeBmpa [104, 105] sampleDocument =
      some [104, 105, 0, 2, 0, 0, 0, 1, 0, 0, 0, 16, 0, 8, 0, 3, 0, 44, 1,
        255, 0, 0, 255, 1, 2, 3, 4, 1, 0, 0, 0, 1, 0, 2, 0, 3, 0, 4, 0] := by
  obtain ⟨bytes, hw, hb, _⟩ :=
    write_step_layout [104, 105] sampleDocument (by decide) (by decide) (by decide)
  rw [hw, hb]
  rfl

/-- C8 fails as stated: with 32-bit samples (maximum sample value 4294967295) the sample
16843009 has floor(16843009*255/4294967295) = 1, and lines 161-164, which compute in float,
store 0 for red, green and blue and 255 for alpha where the formula gives 254. -/
theorem channel_conversion_fails_depth32 :
    convertPixel 4294967295 ⟨16843009, 16843009, 16843009, 16843009⟩ = ⟨0, 0, 0, 255⟩ ∧
      Int.floor (((16843009 : Nat) : ℚ) * 255 / ((4294967295 : Nat) : ℚ)) = 1 := by
  constructor
  · decide!
  · norm_num

/-- C8 (amended): with the maximum sample value 255 or 65535, for samples between 0 and that
maximum the converted record is r = floor(red*255/M), g = floor(green*255/M),
b = floor(blue*255/M) and a = 255 - floor(opacity*255/M), and a plus the scaled opacity is 255;
for every maximum sample value each converted channel lies between 0 and 255 and a fully
opaque pure-red pixel converts to (255, 0, 0, 255). -/
theorem channel_conversion (MaxRGB : Nat) (p : PixelPacket)
    (hM : MaxRGB = 255 ∨ MaxRGB = 65535)
    (hr : p.red ≤ MaxRGB) (hg : p.green ≤ MaxRGB) (hb : p.blue ≤ MaxRGB)
    (ho : p.opacity ≤ MaxRGB) :
    ((convertPixel MaxRGB p).r : ℤ) = Int.floor ((p.red : ℚ) * 255 / (MaxRGB : ℚ)) ∧
    ((convertPixel MaxRGB p).g : ℤ) = Int.floor ((p.green : ℚ) * 255 / (MaxRGB : ℚ)) ∧
    ((convertPixel MaxRGB p).b : ℤ) = Int.floor ((p.blue : ℚ) * 255 / (MaxRGB : ℚ)) ∧
    ((convertPixel MaxRGB p).a : ℤ) = 255 - Int.floor ((p.opacity : ℚ) * 255 / (MaxRGB : ℚ)) ∧
    ((convertPixel MaxRGB p).a : ℤ) + Int.floor ((p.opacity : ℚ) * 255 / (MaxRGB : ℚ)) = 255 ∧
    (∀ (m : Nat) (s : PixelPacket),
      (convertPixel m s).r ≤ 255 ∧ (convertPixel m s).g ≤ 255 ∧
      (convertPixel m s).b ≤ 255 ∧ (convertPixel m s).a ≤ 255) ∧
    (∀ m : Nat, 0 < m → convertPixel m ⟨m, 0, 0, 0⟩ = ⟨255, 0, 0, 255⟩) := by
  have hfloor : ∀ v : Nat,
      Int.floor ((v : ℚ) * 255 / (MaxRGB : ℚ)) = ((v * 255 / MaxRGB : Nat) : Int) := by
    intro v
    have hq : (v : ℚ) * 255 / (MaxRGB : ℚ) = ((v * 255 : Nat) : ℚ) / ((MaxRGB : Nat) : ℚ) := by
      push_cast
      ring
    rw [hq, Rat.floor_natCast_div_natCast]
    norm_cast
  have h4 := scaled_le MaxRGB p.opacity ho
  rw [convertPixel_eq MaxRGB p hM hr hg hb ho, hfloor, hfloor, hfloor, hfloor]
  refine ⟨rfl, rfl, rfl, ?_, ?_, ?_, ?_⟩
  · exact Int.ofNat_sub h4
  · show ((255 - p.opacity * 255 / MaxRGB : Nat) : Int) +
      ((p.opacity * 255 / MaxRGB : Nat) : Int) = 255
    rw [← Int.ofNat_add, Nat.sub_add_cancel h4]
    rfl
  · intro m s
    exact ⟨toUChar_le _, toUChar_le _, toUChar_le _, toUChar_le _⟩
  · intro m hm
    exact convertPixel_red m hm

/-- With 16-bit samples, the half-transparent orange sample (65535, 32768, 0, 16384) has the
red byte floor(65535*255/65535) and an alpha byte within range, and pure red becomes
(255, 0, 0, 255). -/
theorem channel_conversion_witness :
    ((convertPixel 65535 ⟨65535, 32768, 0, 16384⟩).r : ℤ) =
        Int.floor (((65535 : Nat) : ℚ) * 255 / ((65535 : Nat) : ℚ)) ∧
      (convertPixel 65535 ⟨65535, 32768, 0, 16384⟩).a ≤ 255 ∧
      convertPixel 65535 ⟨65535, 0, 0, 0⟩ = ⟨255, 0, 0, 255⟩ :=
  have h := channel_conversion 65535 ⟨65535, 32768, 0, 16384⟩ (Or.inr rfl) (by decide)
    (by decide) (by decide) (by decide)
  ⟨h.1, (h.2.2.2.2.2.1 65535 ⟨65535, 32768, 0, 16384⟩).2.2.2, h.2.2.2.2.2.2 65535 (by decide)⟩

theorem loadMetadata_obj_eq (kvs : List (String × Json))
    (hc : ∀ v, kvs.lookup "comment" = some v → ∃ s, v = Json.str s)
    (hn : ∀ key ∈ ["gridW", "gridH", "rotatePointX", "rotatePointY"],
      ∀ v, kvs.lookup key = some v → ∃ n : Nat, n < 65536 ∧ v = Json.num (n : Int)) :
    loadMetadata (.obj kvs) [] initialBmpa =
      match loadAnimationsSection (.obj kvs) (givenGeometry kvs) with
      | .error err => .error err
      | .ok loaded => .ok (givenComment kvs, loaded) := by
  have h0 : (if (kvs.lookup "comment").isSome then givenComment kvs else []) =
      givenComment kvs := by
    cases hl : kvs.lookup "comment" with
    | none => simp [givenComment, hl]
    | some v => simp
  unfold loadMetadata
  rw [loadComment_obj kvs [] hc, h0,
    loadUShort_obj kvs "gridW" (hn "gridW" (by simp)),
    loadUShort_obj kvs "gridH" (hn "gridH" (by simp)),
    loadUShort_obj kvs "rotatePointX" (hn "rotatePointX" (by simp)),
    loadUShort_obj kvs "rotatePointY" (hn "rotatePointY" (by simp))]
  rfl

/-- C10: for a metadata object whose optional values have their schema types, no error comes
from a missing comment, gridW, gridH, rotatePointX or rotatePointY: without an animations key
the loader succeeds, any error it raises is the error of the animations section, and in the
resulting document each of the five fields is the value given under its key, or the default
(empty comment, 0) when the key is not there, whatever other keys are present. -/
theorem optional_fields_default (kvs : List (String × Json))
    (hc : ∀ v, kvs.lookup "comment" = some v → ∃ s, v = Json.str s)
    (hn : ∀ key ∈ ["gridW", "gridH", "rotatePointX", "rotatePointY"],
      ∀ v, kvs.lookup key = some v → ∃ n : Nat, n < 65536 ∧ v = Json.num (n : Int)) :
    (kvs.lookup "animations" = none →
      loadMetadata (.obj kvs) [] initialBmpa = .ok (givenComment kvs, givenGeometry kvs)) ∧
    (∀ err, loadMetadata (.obj kvs) [] initialBmpa = .error err →
      loadAnimationsSection (.obj kvs) (givenGeometry kvs) = .error err) ∧
    (∀ c out, loadMetadata (.obj kvs) [] initialBmpa = .ok (c, out) →
      c = givenComment kvs ∧ out.gridW = givenUShort kvs "gridW" ∧
      out.gridH = givenUShort kvs "gridH" ∧
      out.rotatePointX = givenUShort kvs "rotatePointX" ∧
      out.rotatePointY = givenUShort kvs "rotatePointY") := by
  have heq := loadMetadata_obj_eq kvs hc hn
  refine ⟨?_, ?_, ?_⟩
  · intro ha
    have hcont : (Json.obj kvs).contains "animations" = false := by
      rw [contains_obj, ha]
      rfl
    rw [heq, loadAnimationsSection_absent _ _ hcont]
  · intro err herr
    rw [heq] at herr
    cases hs : loadAnimationsSection (.obj kvs) (givenGeometry kvs) with
    | error e =>
      simp only [hs] at herr
      rw [Except.error.inj herr]
    | ok loaded =>
      simp only [hs] at herr
      cases herr
  · intro c out hok
    rw [heq] at hok
    cases hs : loadAnimationsSection (.obj kvs) (givenGeometry kvs) with
    | error e =>
      simp only [hs] at hok
      cases hok
    | ok loaded =>
      simp only [hs] at hok
      have hl := loadAnimationsSection_ok _ _ _ hs
      have hp := Except.ok.inj hok
      have h1 : givenComment kvs = c := congrArg Prod.fst hp
      have h2 : loaded = out := congrArg Prod.snd hp
      subst h1
      subst h2
      subst hl
      exact ⟨rfl, rfl, rfl, rfl, rfl⟩

/-- The object with only a comment "hi" and gridH = 7 loads to that comment, gridH = 7 and
zeros elsewhere. -/
theorem optional_fields_default_witness :
    loadMetadata (.obj [("comment", .str [104, 105]), ("gridH", .num 7)]) [] initialBmpa =
      .ok ([104, 105], { initialBmpa with gridH := 7 }) :=
  (optional_fields_default [("comment", .str [104, 105]), ("gridH", .num 7)]
    (by
      intro v hv
      have hv2 : v = Json.str [104, 105] := by
        have h : (some (Json.str [104, 105]) : Option Json) = some v := hv
        exact (Option.some.inj h).symm
      exact ⟨_, hv2⟩)
    (by
      intro key hkey v hv
      simp only [List.mem_cons, List.mem_singleton, List.mem_nil_iff, or_false] at hkey
      rcases hkey with rfl | rfl | rfl | rfl
      · cases hv
      · have h : (some (Json.num 7) : Option Json) = some v := hv
        exact ⟨7, by decide, (Option.some.inj h).symm⟩
      · cases hv
      · cases hv)).1 rfl

/-- C2: on the metadata with the single complete entry
(baseFrame 1, startFrame 2, endFrame 3, rate 4) the run does not produce animationCount 1
and one record.  The bound of line 116 is the size of a new empty array, so the loop does not
run and the loader yields the document without any clip: the run is the run without metadata.
Whatever the loop bound, the loader never yields the document with that clip, because the test
of lines 117-120 fires on the present startFrame key ("Animation at 0 is missing a value"). -/
theorem complete_entry_rejected (MaxRGB : Nat) (decoded : Except String Image) :
    loadInfo (.parsed (.obj [("animations", .arr [completeEntry])])) = .ok ([], initialBmpa) ∧
      run MaxRGB (.parsed (.obj [("animations", .arr [completeEntry])])) decoded =
        run MaxRGB .absent decoded ∧
      (∀ bound, loadAnimations bound (.arr [completeEntry]) initialBmpa ≠
        .ok (pushAnimation initialBmpa ⟨1, 2, 3, 4⟩)) ∧
      ∀ out, animationStep (.arr [completeEntry]) out 0 =
        .error (Fatal.animationMissingValue 0) := by
  have hload : loadInfo (.parsed (.obj [("animations", .arr [completeEntry])])) =
      loadInfo .absent := rfl
  refine ⟨rfl, ?_, ?_, ?_⟩
  · unfold run
    rw [hload]
  · intro bound h
    have hl := (loadAnimations_ok bound _ _ _ h).2
    have hcount := congrArg collieBMPA.animationCount hl
    cases hcount
  · intro out
    exact animationStep_of_startFrame _ out 0 rfl

theorem run_two_pixels_absent :
    run 255 .absent (.ok (twoPixelImage 255)) =
      { termination := .returned 0, error := none, imageRead := true,
        outFile := some [0, 2, 0, 0, 0, 1, 0, 0, 0, 0, 0, 0, 0, 0, 0, 0, 0,
          255, 255, 255, 255, 0, 0, 0, 0, 0, 0, 0, 0] } := by
  have hp0 : convertPixel 255 ⟨255, 255, 255, 0⟩ = ⟨255, 255, 255, 255⟩ :=
    convertPixel_white 255 (by decide)
  have hp1 : convertPixel 255 ⟨0, 0, 0, 255⟩ = ⟨0, 0, 0, 0⟩ :=
    convertPixel_clear 255 (by decide)
  have hdm : ∀ j, j < 2 →
      convertPixel 255 ((twoPixelImage 255).getPixels (j % 2) (j / 2)) =
        if j = 0 then ⟨255, 255, 255, 255⟩ else ⟨0, 0, 0, 0⟩ := by
    intro j hj
    have hj2 : j = 0 ∨ j = 1 := by omega
    rcases hj2 with rfl | rfl
    · exact hp0
    · exact hp1
  have hpx : rowMajorPixels 255 (twoPixelImage 255) = [⟨255, 255, 255, 255⟩, ⟨0, 0, 0, 0⟩] := by
    show (List.range 2).map (fun j =>
      convertPixel 255 ((twoPixelImage 255).getPixels (j % 2) (j / 2))) = _
    have h0 := hdm 0 (by decide)
    have h1 := hdm 1 (by decide)
    simp only [List.range_succ, List.range_zero, List.nil_append, List.map_cons, List.map_nil,
      List.cons_append]
    rw [h0, h1]
    rfl
  rw [run_output 255 .absent (twoPixelImage 255) [] initialBmpa rfl
    (by decide) (by decide) (by decide), hpx]
  rfl

theorem loadAnimationsSection_array (kvs : List (String × Json)) (entries : List Json)
    (ha : kvs.lookup "animations" = some (.arr entries)) (out : collieBMPA) :
    loadAnimationsSection (.obj kvs) out = .ok out := by
  unfold loadAnimationsSection
  simp only [contains_obj, ha, Option.isSome_some, if_true, Json.atKey, Option.getD_some,
    Json.isArray, Bool.not_true, Bool.false_eq_true, if_false]
  rfl

/-- C3: on the metadata whose animations array is the single entry
(baseFrame 1, startFrame 2, rate 3), which lacks endFrame, the run does not end with a fatal
error: the loop of lines 116-132 does not run (its bound is the size of a new empty array),
the entry is skipped, and the run on the two-pixel image returns 0 and writes the 29 bytes of
a run without metadata.  The same holds for every animations array of a metadata object whose
other fields have their schema types: the loader yields the document without any clip. -/
theorem malformed_entry_skipped (MaxRGB : Nat) (decoded : Except String Image) :
    run MaxRGB (.parsed (.obj [("animations", .arr [entryWithoutEndFrame])])) decoded =
        run MaxRGB .absent decoded ∧
      run 255 (.parsed (.obj [("animations", .arr [entryWithoutEndFrame])]))
          (.ok (twoPixelImage 255)) =
        { termination := .returned 0, error := none, imageRead := true,
          outFile := some [0, 2, 0, 0, 0, 1, 0, 0, 0, 0, 0, 0, 0, 0, 0, 0, 0,
            255, 255, 255, 255, 0, 0, 0, 0, 0, 0, 0, 0] } ∧
      ∀ (kvs : List (String × Json)) (entries : List Json),
        kvs.lookup "animations" = some (.arr entries) →
        (∀ v, kvs.lookup "comment" = some v → ∃ s, v = Json.str s) →
        (∀ key ∈ ["gridW", "gridH", "rotatePointX", "rotatePointY"],
          ∀ v, kvs.lookup key = some v → ∃ n : Nat, n < 65536 ∧ v = Json.num (n : Int)) →
        loadMetadata (.obj kvs) [] initialBmpa = .ok (givenComment kvs, givenGeometry kvs) := by
  have hload : loadInfo (.parsed (.obj [("animations", .arr [entryWithoutEndFrame])])) =
      loadInfo .absent := rfl
  have hrun : ∀ d, run MaxRGB (.parsed (.obj [("animations", .arr [entryWithoutEndFrame])])) d =
      run MaxRGB .absent d := by
    intro d
    unfold run
    rw [hload]
  have hrun255 : run 255 (.parsed (.obj [("animations", .arr [entryWithoutEndFrame])]))
      (.ok (twoPixelImage 255)) = run 255 .absent (.ok (twoPixelImage 255)) := by
    unfold run
    rw [hload]
  refine ⟨hrun decoded, ?_, ?_⟩
  · rw [hrun255]
    exact run_two_pixels_absent
  · intro kvs entries ha hc hn
    rw [loadMetadata_obj_eq kvs hc hn, loadAnimationsSection_array kvs entries ha]

/-- C4: when the metadata gives a comment without a zero byte (the empty comment included) and
the rest of the metadata loads, the run writes a file whose bytes from offset 0 up to the first
zero byte are exactly the comment, and the byte after them is the zero terminator. -/
theorem comment_roundtrip (MaxRGB : Nat) (image : Image) (kvs : List (String × Json))
    (c : List Byte) (hc : kvs.lookup "comment" = some (.str c)) (hnul : ∀ b ∈ c, b ≠ 0)
    (hrest : ∃ r, loadMetadata (.obj kvs) [] initialBmpa = .ok r)
    (hW : image.width < 2147483648) (hH : image.height < 2147483648)
    (hov : image.width * image.height < 2147483648) :
    ∃ bytes, (run MaxRGB (.parsed (.obj kvs)) (.ok image)).outFile = some bytes ∧
      upToNul bytes = c ∧ bytes.get? c.length = some 0 := by
  obtain ⟨⟨c2, out⟩, hload⟩ := hrest
  have hcom := (loadMetadata_ok_shape _ _ _ _ _ hload).1
  have hc2 : c2 = c := by
    unfold loadComment at hcom
    simp only [contains_obj, hc, Option.isSome_some, if_true, Json.atKey, Option.getD_some,
      Json.getString] at hcom
    exact (Except.ok.inj hcom).symm
  subst hc2
  have hrun := run_output MaxRGB (.parsed (.obj kvs)) image c2 out hload hW hH hov
  refine ⟨_, by rw [hrun], ?_, ?_⟩
  · simp only [List.append_assoc, List.singleton_append]
    exact upToNul_append c2 _ hnul
  · simp only [List.append_assoc, List.singleton_append, List.get?_eq_getElem?]
    rw [List.getElem?_append_right (le_refl _), Nat.sub_self]
    rfl

/-- The comment "hi" comes back from a run on the two-pixel image. -/
theorem comment_roundtrip_witness :
    ∃ bytes, (run 255 (.parsed (.obj [("comment", .str [104, 105])]))
        (.ok (twoPixelImage 255))).outFile = some bytes ∧
      upToNul bytes = [104, 105] ∧ bytes.get? 2 = some 0 :=
  comment_roundtrip 255 (twoPixelImage 255) [("comment", .str [104, 105])] [104, 105] rfl
    (by decide) ⟨_, rfl⟩ (by decide) (by decide) (by decide)

/-- C5: without a metadata file the output is one zero byte for the comment, width and height,
eight zero bytes for gridW, gridH, rotatePointX, rotatePointY, the 4*W*H pixel bytes, and four
zero bytes for the animation count with nothing after them. -/
theorem no_metadata_defaults (MaxRGB : Nat) (image : Image)
    (hW : image.width < 2147483648) (hH : image.height < 2147483648)
    (hov : image.width * image.height < 2147483648) :
    ∃ px : List Byte, px.length = 4 * (image.width * image.height) ∧
      (run MaxRGB .absent (.ok image)).outFile =
        some ([0] ++
          [image.width % 256, image.width / 256 % 256, image.width / 65536 % 256,
            image.width / 16777216 % 256] ++
          [image.height % 256, image.height / 256 % 256, image.height / 65536 % 256,
            image.height / 16777216 % 256] ++
          [0, 0, 0, 0, 0, 0, 0, 0] ++ px ++ [0, 0, 0, 0]) := by
  refine ⟨(rowMajorPixels MaxRGB image).flatMap pixelBytes, ?_, ?_⟩
  · rw [length_flatMap_pixelBytes, length_rowMajorPixels]
  · rw [run_output MaxRGB .absent image [] initialBmpa rfl hW hH hov]
    simp only [leBytes_four]
    rfl

/-- The two-pixel image without metadata gives a file with the default header. -/
theorem no_metadata_defaults_witness :
    ∃ px : List Byte, px.length = 4 * (2 * 1) ∧
      (run 255 .absent (.ok (twoPixelImage 255))).outFile =
        some ([0] ++ [2, 0, 0, 0] ++ [1, 0, 0, 0] ++ [0, 0, 0, 0, 0, 0, 0, 0] ++ px ++
          [0, 0, 0, 0]) :=
  no_metadata_defaults 255 (twoPixelImage 255) (by decide) (by decide) (by decide)

theorem flatMap_rowMajor_pixels (MaxRGB : Nat) (image : Image) :
    (rowMajorPixels MaxRGB image).flatMap pixelBytes =
      (List.range image.height).flatMap fun y =>
        (List.range image.width).flatMap fun x =>
          pixelBytes (convertPixel MaxRGB (image.getPixels x y)) := by
  have h1 : ∀ y ∈ List.range image.height,
      ((List.range image.width).flatMap fun x =>
        pixelBytes (convertPixel MaxRGB (image.getPixels x y))) =
      ((List.range image.width).flatMap fun x =>
        pixelBytes (convertPixel MaxRGB (image.getPixels ((y * image.width + x) % image.width)
          ((y * image.width + x) / image.width)))) := by
    intro y _
    apply List.flatMap_congr
    intro x hx
    have hdm := rowMajor_div_mod image.width y x (List.mem_range.mp hx)
    rw [hdm.1, hdm.2]
  rw [List.flatMap_congr h1,
    flatMap_rowMajor image.width image.height (fun j =>
      pixelBytes (convertPixel MaxRGB (image.getPixels (j % image.width) (j / image.width))))]
  unfold rowMajorPixels
  rw [List.flatMap_map, Nat.mul_comm]

/-- C6: for a W x H image whose dimensions do not overflow, run with metadata that loads, the
pixel section of the output has 4*W*H bytes, the four bytes at offset 4*(y*W + x) of it are
the converted R, G, B, A of source pixel (x, y), and the section as a whole is the converted
records row 0 first and each row left to right. -/
theorem pixel_section_roundtrip (MaxRGB : Nat) (source : MetaSource) (image : Image)
    (c : List Byte) (out : collieBMPA) (hload : loadInfo source = .ok (c, out))
    (hW : image.width < 2147483648) (hH : image.height < 2147483648)
    (hov : image.width * image.height < 2147483648) :
    ∃ bytes, (run MaxRGB source (.ok image)).outFile = some bytes ∧
      (pixelSection c.length image.width image.height bytes).length =
        4 * (image.width * image.height) ∧
      (∀ x y, x < image.width → y < image.height →
        ((pixelSection c.length image.width image.height bytes).drop
            (4 * (y * image.width + x))).take 4 =
          [(convertPixel MaxRGB (image.getPixels x y)).r,
            (convertPixel MaxRGB (image.getPixels x y)).g,
            (convertPixel MaxRGB (image.getPixels x y)).b,
            (convertPixel MaxRGB (image.getPixels x y)).a]) ∧
      pixelSection c.length image.width image.height bytes =
        (List.range image.height).flatMap fun y =>
          (List.range image.width).flatMap fun x =>
            [(convertPixel MaxRGB (image.getPixels x y)).r,
              (convertPixel MaxRGB (image.getPixels x y)).g,
              (convertPixel MaxRGB (image.getPixels x y)).b,
              (convertPixel MaxRGB (image.getPixels x y)).a] := by
  have hrun := run_output MaxRGB source image c out hload hW hH hov
  have hlen : ((rowMajorPixels MaxRGB image).flatMap pixelBytes).length =
      4 * (image.width * image.height) := by
    rw [length_flatMap_pixelBytes, length_rowMajorPixels]
  have hsec := pixelSection_output c _ _ [0, 0, 0, 0] image.width image.height
    (length_header c image.width image.height out.gridW out.gridH out.rotatePointX
      out.rotatePointY) hlen
  refine ⟨_, by rw [hrun], ?_, ?_, ?_⟩
  · rw [hsec, hlen]
  · intro x y hx hy
    rw [hsec]
    exact drop_take_flatMap_pixelBytes _ _ _
      (getElem_opt_rowMajorPixels_at MaxRGB image y x hy hx)
  · rw [hsec]
    exact flatMap_rowMajor_pixels MaxRGB image

/-- The pixel section of the run on the two-pixel image has 8 bytes. -/
theorem pixel_section_roundtrip_witness :
    ∃ bytes, (run 255 .absent (.ok (twoPixelImage 255))).outFile = some bytes ∧
      (pixelSection 0 2 1 bytes).length = 4 * (2 * 1) := by
  obtain ⟨bytes, h1, h2, _⟩ := pixel_section_roundtrip 255 .absent (twoPixelImage 255) []
    initialBmpa rfl (by decide) (by decide) (by decide)
  exact ⟨bytes, h1, h2⟩

/-- C7: a 2x1 image whose pixel (0,0) is white with opacity 0 and whose pixel (1,0) is black
with full opacity, run without metadata, gives exactly the 29 bytes 00; 02 00 00 00;
01 00 00 00; eight zero bytes; FF FF FF FF; 00 00 00 00; 00 00 00 00. -/
theorem two_pixel_scenario (MaxRGB : Nat) (image : Image) (hM : 0 < MaxRGB)
    (hw : image.width = 2) (hh : image.height = 1)
    (h0 : image.getPixels 0 0 = ⟨MaxRGB, MaxRGB, MaxRGB, 0⟩)
    (h1 : image.getPixels 1 0 = ⟨0, 0, 0, MaxRGB⟩) :
    run MaxRGB .absent (.ok image) =
      { termination := .returned 0, error := none, imageRead := true,
        outFile := some [0, 2, 0, 0, 0, 1, 0, 0, 0, 0, 0, 0, 0, 0, 0, 0, 0,
          255, 255, 255, 255, 0, 0, 0, 0, 0, 0, 0, 0] } := by
  have hp0 : convertPixel MaxRGB (image.getPixels 0 0) = ⟨255, 255, 255, 255⟩ := by
    rw [h0]
    exact convertPixel_white MaxRGB hM
  have hp1 : convertPixel MaxRGB (image.getPixels 1 0) = ⟨0, 0, 0, 0⟩ := by
    rw [h1]
    exact convertPixel_clear MaxRGB hM
  have hpx : (rowMajorPixels MaxRGB image).flatMap pixelBytes =
      [255, 255, 255, 255, 0, 0, 0, 0] := by
    rw [flatMap_rowMajor_pixels, hw, hh]
    simp only [List.range_succ, List.range_zero, List.nil_append, List.flatMap_cons,
      List.flatMap_nil, List.append_nil, List.cons_append, hp0, hp1, pixelBytes]
  rw [run_output MaxRGB .absent image [] initialBmpa rfl (by omega) (by omega)
    (by rw [hw, hh]; decide), hpx, hw, hh]
  rfl

/-- The scenario with 8-bit samples. -/
theorem two_pixel_scenario_witness :
    run 255 .absent (.ok (twoPixelImage 255)) =
      { termination := .returned 0, error := none, imageRead := true,
        outFile := some [0, 2, 0, 0, 0, 1, 0, 0, 0, 0, 0, 0, 0, 0, 0, 0, 0,
          255, 255, 255, 255, 0, 0, 0, 0, 0, 0, 0, 0] } :=
  two_pixel_scenario 255 (twoPixelImage 255) (by decide) rfl rfl rfl rfl

/-- C9 fails as stated: a metadata text whose top-level value is the array [1] raises no error;
the run returns 0 and writes the same 29 bytes as a run without metadata. -/
theorem top_level_array_accepted :
    run 255 (.parsed (.arr [.num 1])) (.ok (twoPixelImage 255)) =
      { termination := .returned 0, error := none, imageRead := true,
        outFile := some [0, 2, 0, 0, 0, 1, 0, 0, 0, 0, 0, 0, 0, 0, 0, 0, 0,
          255, 255, 255, 255, 0, 0, 0, 0, 0, 0, 0, 0] } := by
  have hp0 : convertPixel 255 ⟨255, 255, 255, 0⟩ = ⟨255, 255, 255, 255⟩ :=
    convertPixel_white 255 (by decide)
  have hp1 : convertPixel 255 ⟨0, 0, 0, 255⟩ = ⟨0, 0, 0, 0⟩ :=
    convertPixel_clear 255 (by decide)
  have hpx : (rowMajorPixels 255 (twoPixelImage 255)).flatMap pixelBytes =
      [255, 255, 255, 255, 0, 0, 0, 0] := by
    rw [flatMap_rowMajor_pixels]
    show ((List.range 1).flatMap fun y => (List.range 2).flatMap fun x =>
      pixelBytes (convertPixel 255 ((twoPixelImage 255).getPixels x y))) = _
    simp only [List.range_succ, List.range_zero, List.nil_append, List.flatMap_cons,
      List.flatMap_nil, List.append_nil, List.cons_append, twoPixelImage, if_true,
      one_ne_zero, if_false, hp0, hp1, pixelBytes]
  rw [run_output 255 (.parsed (.arr [.num 1])) (twoPixelImage 255) [] initialBmpa rfl
    (by decide) (by decide) (by decide), hpx]
  rfl

/-- C9 (amended): a metadata value that is not an object raises no error in the loader: every
key test answers no, so the run proceeds exactly as a run without a metadata file, with the
empty comment, zero geometry and no animation. -/
theorem non_object_metadata_ignored (info : Json) (hno : ∀ kvs, info ≠ Json.obj kvs)
    (MaxRGB : Nat) (decoded : Except String Image) :
    run MaxRGB (.parsed info) decoded = run MaxRGB .absent decoded := by
  have h : loadInfo (.parsed info) = loadInfo .absent :=
    loadMetadata_not_obj info hno []
  unfold run
  rw [h]

/-- A top-level number is treated as no metadata at all. -/
theorem non_object_metadata_ignored_witness :
    run 65535 (.parsed (.num 5)) (.error "unreadable") =
      run 65535 .absent (.error "unreadable") :=
  non_object_metadata_ignored (.num 5) (fun _ h => Json.noConfusion h) 65535
    (.error "unreadable")

theorem loadAnimationsSection_not_array (kvs : List (String × Json)) (v : Json)
    (ha : kvs.lookup "animations" = some v) (hv : v.isArray = false) (out : collieBMPA) :
    loadAnimationsSection (.obj kvs) out = .error Fatal.animationsNotArray := by
  unfold loadAnimationsSection
  simp only [contains_obj, ha, Option.isSome_some, if_true, Json.atKey, Option.getD_some, hv,
    Bool.not_false]

/-- C11: when the key animations of a metadata object holds a value that is not an array, the
run ends with a fatal error while the metadata is loaded: the image is never read, no output
file is opened and nothing is written; when the five optional fields have their schema types
the error is the one of lines 112-113, followed by exit(0). -/
theorem animations_not_array_aborts (MaxRGB : Nat) (decoded : Except String Image)
    (kvs : List (String × Json)) (v : Json)
    (ha : kvs.lookup "animations" = some v) (hv : v.isArray = false) :
    (∃ err, run MaxRGB (.parsed (.obj kvs)) decoded =
        { termination := err.termination, error := some err, imageRead := false,
          outFile := none } ∧
      err.termination ≠ .returned 0) ∧
    ((∀ w, kvs.lookup "comment" = some w → ∃ s, w = Json.str s) →
      (∀ key ∈ ["gridW", "gridH", "rotatePointX", "rotatePointY"],
        ∀ w, kvs.lookup key = some w → ∃ n : Nat, n < 65536 ∧ w = Json.num (n : Int)) →
      run MaxRGB (.parsed (.obj kvs)) decoded =
        { termination := .exited 0, error := some Fatal.animationsNotArray,
          imageRead := false, outFile := none }) := by
  constructor
  · obtain ⟨err, herr⟩ := loadMetadata_error_of_section (.obj kvs) [] initialBmpa
      (fun out => ⟨_, loadAnimationsSection_not_array kvs v ha hv out⟩)
    exact ⟨err, run_of_loadInfo_error MaxRGB _ decoded err herr,
      termination_ne_returned err 0⟩
  · intro hc hn
    have hload : loadInfo (.parsed (.obj kvs)) = .error Fatal.animationsNotArray := by
      show loadMetadata (.obj kvs) [] initialBmpa = _
      rw [loadMetadata_obj_eq kvs hc hn, loadAnimationsSection_not_array kvs v ha hv]
    exact run_of_loadInfo_error MaxRGB _ decoded _ hload

/-- The metadata with animations = 5 ends the run with exit(0) before the image is read. -/
theorem animations_not_array_aborts_witness :
    ∃ err, run 255 (.parsed (.obj [("animations", .num 5)])) (.ok (twoPixelImage 255)) =
        { termination := err.termination, error := some err, imageRead := false,
          outFile := none } ∧
      err.termination ≠ .returned 0 :=
  (animations_not_array_aborts 255 (.ok (twoPixelImage 255)) [("animations", .num 5)]
    (.num 5) rfl rfl).1

/-- C13: when the image decode step signals an error, whatever the metadata, the run does not
return from main, the output file is never opened and no byte is written; when the metadata had
loaded, the run ends with the decode error and exit(0). -/
theorem decode_error_aborts (MaxRGB : Nat) (source : MetaSource) (what : String) :
    (run MaxRGB source (.error what)).outFile = none ∧
      (run MaxRGB source (.error what)).termination ≠ .returned 0 ∧
      (∀ c out, loadInfo source = .ok (c, out) →
        run MaxRGB source (.error what) =
          { termination := .exited 0, error := some (Fatal.magickException what),
            imageRead := true, outFile := none }) := by
  unfold run
  cases hl : loadInfo source with
  | error err =>
    refine ⟨rfl, termination_ne_returned err 0, ?_⟩
    intro c out h
    cases h
  | ok r =>
    obtain ⟨c, out⟩ := r
    refine ⟨rfl, ?_, ?_⟩
    · intro h
      cases h
    · intro c2 out2 _
      rfl

theorem get_opt_of_drop_take {α : Type} (l chunk : List α) (n t : Nat)
    (h : (l.drop n).take 4 = chunk) (ht : t < 4) : l.get? (n + t) = chunk.get? t := by
  rw [← h, List.get?_eq_getElem?, List.get?_eq_getElem?, List.getElem?_take_of_lt ht,
    List.getElem?_drop]

/-- C14: for two images of the same dimensions run with the same metadata, at every pixel
(x, y) the R byte of output record y*W + x is the same in both outputs as soon as the two red
samples at (x, y) agree, and likewise G for green, B for blue and A for opacity: no other
channel and no other pixel enters. -/
theorem conversion_channel_independent (MaxRGB : Nat) (source : MetaSource)
    (c : List Byte) (out : collieBMPA) (hload : loadInfo source = .ok (c, out))
    (image other : Image) (hw : other.width = image.width) (hh : other.height = image.height)
    (hW : image.width < 2147483648) (hH : image.height < 2147483648)
    (hov : image.width * image.height < 2147483648) :
    ∃ b1 b2, (run MaxRGB source (.ok image)).outFile = some b1 ∧
      (run MaxRGB source (.ok other)).outFile = some b2 ∧
      ∀ x y, x < image.width → y < image.height →
        ((image.getPixels x y).red = (other.getPixels x y).red →
          ∃ v, (pixelSection c.length image.width image.height b1).get?
                (4 * (y * image.width + x)) = some v ∧
            (pixelSection c.length image.width image.height b2).get?
                (4 * (y * image.width + x)) = some v) ∧
        ((image.getPixels x y).green = (other.getPixels x y).green →
          ∃ v, (pixelSection c.length image.width image.height b1).get?
                (4 * (y * image.width + x) + 1) = some v ∧
            (pixelSection c.length image.width image.height b2).get?
                (4 * (y * image.width + x) + 1) = some v) ∧
        ((image.getPixels x y).blue = (other.getPixels x y).blue →
          ∃ v, (pixelSection c.length image.width image.height b1).get?
                (4 * (y * image.width + x) + 2) = some v ∧
            (pixelSection c.length image.width image.height b2).get?
                (4 * (y * image.width + x) + 2) = some v) ∧
        ((image.getPixels x y).opacity = (other.getPixels x y).opacity →
          ∃ v, (pixelSection c.length image.width image.height b1).get?
                (4 * (y * image.width + x) + 3) = some v ∧
            (pixelSection c.length image.width image.height b2).get?
                (4 * (y * image.width + x) + 3) = some v) := by
  have hrun1 := run_output MaxRGB source image c out hload hW hH hov
  have hrun2 := run_output MaxRGB source other c out hload (by rw [hw]; exact hW)
    (by rw [hh]; exact hH) (by rw [hw, hh]; exact hov)
  have hlen1 : ((rowMajorPixels MaxRGB image).flatMap pixelBytes).length =
      4 * (image.width * image.height) := by
    rw [length_flatMap_pixelBytes, length_rowMajorPixels]
  have hlen2 : ((rowMajorPixels MaxRGB other).flatMap pixelBytes).length =
      4 * (image.width * image.height) := by
    rw [length_flatMap_pixelBytes, length_rowMajorPixels, hw, hh]
  have hsec1 := pixelSection_output c _ _ [0, 0, 0, 0] image.width image.height
    (length_header c image.width image.height out.gridW out.gridH out.rotatePointX
      out.rotatePointY) hlen1
  have hsec2 := pixelSection_output c _ _ [0, 0, 0, 0] image.width image.height
    (length_header c other.width other.height out.gridW out.gridH out.rotatePointX
      out.rotatePointY) hlen2
  refine ⟨_, _, by rw [hrun1], by rw [hrun2], ?_⟩
  intro x y hx hy
  have hd1 := drop_take_flatMap_pixelBytes _ _ _
    (getElem_opt_rowMajorPixels_at MaxRGB image y x hy hx)
  have hd2 := drop_take_flatMap_pixelBytes _ _ _
    (getElem_opt_rowMajorPixels_at MaxRGB other y x (by rw [hh]; exact hy)
      (by rw [hw]; exact hx))
  rw [hw] at hd2
  rw [hsec1, hsec2]
  refine ⟨?_, ?_, ?_, ?_⟩
  · intro hs
    refine ⟨toUChar (truncToInt (scaleSample MaxRGB (image.getPixels x y).red)), ?_, ?_⟩
    · exact get_opt_of_drop_take _ _ _ 0 hd1 (by decide)
    · rw [hs]
      exact get_opt_of_drop_take _ _ _ 0 hd2 (by decide)
  · intro hs
    refine ⟨toUChar (truncToInt (scaleSample MaxRGB (image.getPixels x y).green)), ?_, ?_⟩
    · exact get_opt_of_drop_take _ _ _ 1 hd1 (by decide)
    · rw [hs]
      exact get_opt_of_drop_take _ _ _ 1 hd2 (by decide)
  · intro hs
    refine ⟨toUChar (truncToInt (scaleSample MaxRGB (image.getPixels x y).blue)), ?_, ?_⟩
    · exact get_opt_of_drop_take _ _ _ 2 hd1 (by decide)
    · rw [hs]
      exact get_opt_of_drop_take _ _ _ 2 hd2 (by decide)
  · intro hs
    refine ⟨toUChar (255 - truncToInt (scaleSample MaxRGB (image.getPixels x y).opacity)),
      ?_, ?_⟩
    · exact get_opt_of_drop_take _ _ _ 3 hd1 (by decide)
    · rw [hs]
      exact get_opt_of_drop_take _ _ _ 3 hd2 (by decide)

/-- Two runs on the two-pixel image give outputs whose records agree channel by channel. -/
theorem conversion_channel_independent_witness :
    ∃ b1 b2, (run 255 .absent (.ok (twoPixelImage 255))).outFile = some b1 ∧
      (run 255 .absent (.ok (twoPixelImage 255))).outFile = some b2 ∧
      ∃ v, (pixelSection 0 2 1 b1).get? (4 * (0 * 2 + 1) + 3) = some v ∧
        (pixelSection 0 2 1 b2).get? (4 * (0 * 2 + 1) + 3) = some v := by
  obtain ⟨b1, b2, h1, h2, h⟩ := conversion_channel_independent 255 .absent [] initialBmpa rfl
    (twoPixelImage 255) (twoPixelImage 255) rfl rfl (by decide) (by decide) (by decide)
  exact ⟨b1, b2, h1, h2, (h 1 0 (by decide) (by decide)).2.2.2 rfl⟩

/-- C17: when W*H does not overflow, the index pTarget = y*W + x of the conversion loop and of
the write loop is never negative and always below W*H; every index of the W*H-slot buffer is
the pTarget of exactly one pair (x, y) with x < W and y < H; so the conversion loop stores into
every slot without leaving the buffer, each slot then holds the conversion of its own pixel,
and the write loop reads the whole buffer without leaving it. -/
theorem pTarget_in_bounds_once (W H : Nat) (hov : W * H < 2147483648) :
    (∀ y x, y < H → x < W →
      0 ≤ pTarget W y x ∧ pTarget W y x < ((W * H : Nat) : Int)) ∧
    (∀ i, i < W * H → ∃ y x, y < H ∧ x < W ∧ pTarget W y x = (i : Int) ∧
      ∀ y2 x2, y2 < H → x2 < W → pTarget W y2 x2 = (i : Int) → y2 = y ∧ x2 = x) ∧
    (∀ (MaxRGB : Nat) (image : Image) (out : collieBMPA),
      image.width = W → image.height = H → W < 2147483648 → H < 2147483648 →
      ∃ converted, convertImage MaxRGB image out = .ok converted ∧
        converted.pixels.length = W * H ∧
        (∀ y x, y < H → x < W →
          readAt converted.pixels (pTarget W y x) =
            some (convertPixel MaxRGB (image.getPixels x y))) ∧
        ∃ px, writePixels converted = some px) := by
  refine ⟨?_, ?_, ?_⟩
  · intro y x hy hx
    have hlt := rowMajor_lt W H y x hy hx
    rw [pTarget_eq W H y x hy hx hov]
    exact ⟨Int.natCast_nonneg _, by exact_mod_cast hlt⟩
  · intro i hi
    have hWpos : 0 < W := by
      rcases Nat.eq_zero_or_pos W with h0 | h0
      · rw [h0, Nat.zero_mul] at hi
        exact absurd hi (Nat.not_lt_zero _)
      · exact h0
    have hx : i % W < W := Nat.mod_lt _ hWpos
    have hy : i / W < H := by
      rw [Nat.div_lt_iff_lt_mul hWpos, Nat.mul_comm]
      exact hi
    have hsum : i / W * W + i % W = i := by
      rw [Nat.mul_comm]
      exact Nat.div_add_mod i W
    refine ⟨i / W, i % W, hy, hx, ?_, ?_⟩
    · rw [pTarget_eq W H _ _ hy hx hov, hsum]
    · intro y2 x2 hy2 hx2 h2
      rw [pTarget_eq W H y2 x2 hy2 hx2 hov] at h2
      have h3 : y2 * W + x2 = i := by exact_mod_cast h2
      have hdm := rowMajor_div_mod W y2 x2 hx2
      rw [h3] at hdm
      exact ⟨hdm.1.symm, hdm.2.symm⟩
  · intro MaxRGB image out hw hh hW hH
    subst hw
    subst hh
    refine ⟨_, convertImage_eq MaxRGB image out hW hH hov, length_rowMajorPixels MaxRGB image,
      ?_, ?_⟩
    · intro y x hy hx
      rw [pTarget_eq image.width image.height y x hy hx hov, readAt_natCast,
        List.get?_eq_getElem?]
      exact getElem_opt_rowMajorPixels_at MaxRGB image y x hy hx
    · exact ⟨_, writePixels_eq _ (length_rowMajorPixels MaxRGB image) hov⟩

/-- In a 3x2 buffer the index of pixel (2, 1) is 5, inside the six slots. -/
theorem pTarget_in_bounds_once_witness :
    0 ≤ pTarget 3 1 2 ∧ pTarget 3 1 2 < ((3 * 2 : Nat) : Int) :=
  (pTarget_in_bounds_once 3 2 (by decide)).1 1 2 (by decide) (by decide)

theorem leBytes_inj (k v w : Nat) (hv : v < 256 ^ k) (hw : w < 256 ^ k)
    (h : leBytes k v = leBytes k w) : v = w := by
  induction k generalizing v w with
  | zero =>
    simp only [pow_zero, Nat.lt_one_iff] at hv hw
    rw [hv, hw]
  | succ k ih =>
    simp only [leBytes, List.cons.injEq] at h
    have hv2 : v / 256 < 256 ^ k := by
      rw [Nat.div_lt_iff_lt_mul (by decide)]
      rw [pow_succ] at hv
      exact hv
    have hw2 : w / 256 < 256 ^ k := by
      rw [Nat.div_lt_iff_lt_mul (by decide)]
      rw [pow_succ] at hw
      exact hw
    have hq := ih (v / 256) (w / 256) hv2 hw2 h.2
    have hm : v % 256 = w % 256 := h.1
    have h1 := Nat.div_add_mod v 256
    have h2 := Nat.div_add_mod w 256
    rw [← h1, ← h2, hq, hm]

theorem append_inj_of_nul (c1 c2 r1 r2 : List Byte) (h1 : ∀ b ∈ c1, b ≠ 0)
    (h2 : ∀ b ∈ c2, b ≠ 0) (h : c1 ++ 0 :: r1 = c2 ++ 0 :: r2) : c1 = c2 ∧ r1 = r2 := by
  have hc : c1 = c2 := by
    rw [← upToNul_append c1 r1 h1, ← upToNul_append c2 r2 h2, h]
  subst hc
  have ht := List.append_cancel_left h
  exact ⟨rfl, (List.cons.inj ht).2⟩

theorem flatMap_inj_of_length {α β : Type} (f : α → List β) (k : Nat) (hk : 0 < k)
    (hlen : ∀ a, (f a).length = k) (l1 l2 : List α)
    (hinj : ∀ a ∈ l1, ∀ b ∈ l2, f a = f b → a = b)
    (h : l1.flatMap f = l2.flatMap f) : l1 = l2 := by
  induction l1 generalizing l2 with
  | nil =>
    cases l2 with
    | nil => rfl
    | cons b rest =>
      have hl := congrArg List.length h
      simp only [List.flatMap_nil, List.length_nil, List.flatMap_cons, List.length_append,
        hlen] at hl
      omega
  | cons a rest ih =>
    cases l2 with
    | nil =>
      have hl := congrArg List.length h
      simp only [List.flatMap_nil, List.length_nil, List.flatMap_cons, List.length_append,
        hlen] at hl
      omega
    | cons b rest2 =>
      simp only [List.flatMap_cons] at h
      have hsplit := List.append_inj h (by rw [hlen, hlen])
      have hab := hinj a (List.mem_cons_self _ _) b (List.mem_cons_self _ _) hsplit.1
      have hrest := ih rest2
        (fun x hx y hy => hinj x (List.mem_cons_of_mem _ hx) y (List.mem_cons_of_mem _ hy))
        hsplit.2
      rw [hab, hrest]

theorem pixelBytes_inj (p q : collieBMPAPixel) (h : pixelBytes p = pixelBytes q) : p = q := by
  cases p
  cases q
  simp only [pixelBytes, List.cons.injEq, and_true] at h
  obtain ⟨h1, h2, h3, h4⟩ := h
  subst h1
  subst h2
  subst h3
  subst h4
  rfl

theorem clipBytes_inj (a b : collieAnimationInfo)
    (ha : a.baseFrame < 65536 ∧ a.startFrame < 65536 ∧ a.endFrame < 65536 ∧ a.rate < 65536)
    (hb : b.baseFrame < 65536 ∧ b.startFrame < 65536 ∧ b.endFrame < 65536 ∧ b.rate < 65536)
    (h : clipBytes a = clipBytes b) : a = b := by
  unfold clipBytes at h
  have h1 := List.append_inj h (by simp only [List.length_append, length_leBytes])
  have h2 := List.append_inj h1.1 (by simp only [List.length_append, length_leBytes])
  have h3 := List.append_inj h2.1 (by simp only [length_leBytes])
  have e1 := leBytes_inj 2 _ _ ha.1 hb.1 h3.1
  have e2 := leBytes_inj 2 _ _ ha.2.1 hb.2.1 h3.2
  have e3 := leBytes_inj 2 _ _ ha.2.2.1 hb.2.2.1 h2.2
  have e4 := leBytes_inj 2 _ _ ha.2.2.2 hb.2.2.2 h1.2
  cases a
  cases b
  simp only at e1 e2 e3 e4
  subst e1
  subst e2
  subst e3
  subst e4
  rfl

/-- C16: the write step is injective on well-formed documents: when two documents (comments
without a zero byte, width*height pixel records, animationCount clips, every field within its
width) are written to the same byte stream, they have the same comment, width, height, gridW,
gridH, rotatePointX, rotatePointY, pixel buffer, clip count and clip list. -/
theorem write_step_injective (c1 c2 : List Byte) (out1 out2 : collieBMPA)
    (h1 : WellFormed c1 out1) (h2 : WellFormed c2 out2) (bytes : List Byte)
    (e1 : writeBmpa c1 out1 = some bytes) (e2 : writeBmpa c2 out2 = some bytes) :
    c1 = c2 ∧ out1 = out2 := by
  obtain ⟨n1, p1, a1, ov1, w1, hh1, g1, gh1, rx1, ry1, ac1, cl1⟩ := h1
  obtain ⟨n2, p2, a2, ov2, w2, hh2, g2, gh2, rx2, ry2, ac2, cl2⟩ := h2
  rw [writeBmpa_eq c1 out1 p1 ov1 a1] at e1
  rw [writeBmpa_eq c2 out2 p2 ov2 a2] at e2
  have e := (Option.some.inj e1).trans (Option.some.inj e2).symm
  simp only [List.append_assoc, List.singleton_append] at e
  obtain ⟨hc, e⟩ := append_inj_of_nul _ _ _ _ n1 n2 e
  have s1 := List.append_inj e (by rw [length_leBytes, length_leBytes])
  have s2 := List.append_inj s1.2 (by rw [length_leBytes, length_leBytes])
  have s3 := List.append_inj s2.2 (by rw [length_leBytes, length_leBytes])
  have s4 := List.append_inj s3.2 (by rw [length_leBytes, length_leBytes])
  have s5 := List.append_inj s4.2 (by rw [length_leBytes, length_leBytes])
  have s6 := List.append_inj s5.2 (by rw [length_leBytes, length_leBytes])
  have ew := leBytes_inj 4 _ _ w1 w2 s1.1
  have eh := leBytes_inj 4 _ _ hh1 hh2 s2.1
  have eg := leBytes_inj 2 _ _ g1 g2 s3.1
  have egh := leBytes_inj 2 _ _ gh1 gh2 s4.1
  have erx := leBytes_inj 2 _ _ rx1 rx2 s5.1
  have ery := leBytes_inj 2 _ _ ry1 ry2 s6.1
  have hpl : (out1.pixels.flatMap pixelBytes).length = (out2.pixels.flatMap pixelBytes).length := by
    rw [length_flatMap_pixelBytes, length_flatMap_pixelBytes, p1, p2, ew, eh]
  have s7 := List.append_inj s6.2 hpl
  have epx := flatMap_inj_of_length pixelBytes 4 (by decide) (fun _ => rfl) _ _
    (fun p _ q _ hpq => pixelBytes_inj p q hpq) s7.1
  have s8 := List.append_inj s7.2 (by rw [length_leBytes, length_leBytes])
  have eac := leBytes_inj 4 _ _ ac1 ac2 s8.1
  have ean := flatMap_inj_of_length clipBytes 8 (by decide)
    (fun _ => by simp only [clipBytes, List.length_append, length_leBytes]) _ _
    (fun a ha b hb hab => clipBytes_inj a b (cl1 a ha) (cl2 b hb) hab) s8.2
  refine ⟨hc, ?_⟩
  cases out1
  cases out2
  simp only at ew eh eg egh erx ery epx eac ean
  subst ew
  subst eh
  subst eg
  subst egh
  subst erx
  subst ery
  subst epx
  subst eac
  subst ean
  rfl

/-- The sample document written with the comment "hi" is well formed, so only it yields its
stream. -/
theorem write_step_injective_witness :
    WellFormed [104, 105] sampleDocument ∧
      ([104, 105] = [104, 105] ∧ sampleDocument = sampleDocument) := by
  have hwf : WellFormed [104, 105] sampleDocument := by
    unfold WellFormed
    decide
  exact ⟨hwf, write_step_injective [104, 105] [104, 105] sampleDocument sampleDocument hwf hwf
    [104, 105, 0, 2, 0, 0, 0, 1, 0, 0, 0, 16, 0, 8, 0, 3, 0, 44, 1,
      255, 0, 0, 255, 1, 2, 3, 4, 1, 0, 0, 0, 1, 0, 2, 0, 3, 0, 4, 0]
    (by decide) (by decide)⟩

/-- A decode error after absent metadata leaves no output file. -/
theorem decode_error_aborts_witness :
    (run 255 .absent (.error "no decode delegate")).outFile = none ∧
      run 255 .absent (.error "no decode delegate") =
        { termination := .exited 0,
          error := some (Fatal.magickException "no decode delegate"),
          imageRead := true, outFile := none } :=
  ⟨(decode_error_aborts 255 .absent "no decode delegate").1,
    (decode_error_aborts 255 .absent "no decode delegate").2.2 [] initialBmpa rfl⟩

end Convert2cbmpa
